import Mathlib

/-!
# go-base-lib/couchdb: request/response translation helpers

A shallow embedding of `src/utils.go` and `src/structs.go`.

Go values are modelled as follows.

* A Go `string` is an arbitrary byte sequence: `GoString := List UInt8`.  The helper `str`
  turns a Lean string literal into its UTF-8 bytes.
* A Go slice `[]string` may be `nil`: `Option (List GoString)`, with `none` for `nil`.
* A Go `map[string]T` is an association list; the order of the list is the (unspecified)
  order in which `range` visits the map.
* A run-time panic (index out of range, nil dereference) is an explicit outcome.

The functions of the Go standard library that the repository calls (`strconv.Quote`,
`strconv.ParseFloat`, `strings.Split`, `strings.Join`, `filepath.Base`, `filepath.Ext`,
`encoding/json`) are modelled next to the code that calls them; the Unicode tables behind
`strconv.IsPrint` (runes above U+00FF) and the table behind `mime.TypeByExtension` are
parameters.
-/

namespace Couchdb

/-! ## Go strings -/

/-- A Go string: a sequence of bytes, not necessarily valid UTF-8. -/
abbrev GoString := List UInt8

/-- UTF-8 encoding of one Unicode scalar value (`utf8.AppendRune` on a valid rune). -/
def utf8Encode (n : Nat) : GoString :=
  if n < 0x80 then [UInt8.ofNat n]
  else if n < 0x800 then [UInt8.ofNat (0xC0 + n / 64), UInt8.ofNat (0x80 + n % 64)]
  else if n < 0x10000 then
    [UInt8.ofNat (0xE0 + n / 4096), UInt8.ofNat (0x80 + n / 64 % 64), UInt8.ofNat (0x80 + n % 64)]
  else
    [UInt8.ofNat (0xF0 + n / 262144), UInt8.ofNat (0x80 + n / 4096 % 64),
     UInt8.ofNat (0x80 + n / 64 % 64), UInt8.ofNat (0x80 + n % 64)]

/-- The Go string written as the literal `s` (its UTF-8 bytes). -/
def str (s : String) : GoString := s.toList.flatMap (fun c => utf8Encode c.toNat)

/-- The rune `utf8.RuneError`, U+FFFD. -/
def runeError : Nat := 0xFFFD

/-- Continuation-byte test of `utf8.DecodeRuneInString` with an accept range `lo..hi`. -/
def inRange (lo hi : Nat) (b : UInt8) : Bool := decide (lo ≤ b.toNat) && decide (b.toNat ≤ hi)

/-- Second-byte accept range of `utf8.DecodeRuneInString` for the leading byte `s0`
    (the `acceptRanges` table). -/
def acceptRange (s0 : Nat) : Nat × Nat :=
  if s0 = 0xE0 then (0xA0, 0xBF)
  else if s0 = 0xED then (0x80, 0x9F)
  else if s0 = 0xF0 then (0x90, 0xBF)
  else if s0 = 0xF4 then (0x80, 0x8F)
  else (0x80, 0xBF)

/-- Encoded size announced by the leading byte `s0` (the `first` table); `0` for a byte
    that cannot start a multi-byte sequence (`0x80..0xC1`, `0xF5..0xFF`). -/
def leadSize (s0 : Nat) : Nat :=
  if 0xC2 ≤ s0 ∧ s0 ≤ 0xDF then 2
  else if 0xE0 ≤ s0 ∧ s0 ≤ 0xEF then 3
  else if 0xF0 ≤ s0 ∧ s0 ≤ 0xF4 then 4
  else 0

/-- Model of `utf8.DecodeRuneInString`: the first rune of `s` and its width in bytes;
    `(runeError, 1)` for an invalid or truncated encoding, `(runeError, 0)` for empty `s`. -/
def decodeRune (s : GoString) : Nat × Nat :=
  match s with
  | [] => (runeError, 0)
  | b0 :: rest =>
    let s0 := b0.toNat
    if s0 < 0x80 then (s0, 1)
    else if leadSize s0 = 0 then (runeError, 1)
    else
      match rest with
      | [] => (runeError, 1)
      | b1 :: rest1 =>
        if !inRange (acceptRange s0).1 (acceptRange s0).2 b1 then (runeError, 1)
        else if leadSize s0 = 2 then ((s0 % 32) * 64 + b1.toNat % 64, 2)
        else
          match rest1 with
          | [] => (runeError, 1)
          | b2 :: rest2 =>
            if !inRange 0x80 0xBF b2 then (runeError, 1)
            else if leadSize s0 = 3 then
              ((s0 % 16) * 4096 + (b1.toNat % 64) * 64 + b2.toNat % 64, 3)
            else
              match rest2 with
              | [] => (runeError, 1)
              | b3 :: _ =>
                if !inRange 0x80 0xBF b3 then (runeError, 1)
                else ((s0 % 8) * 262144 + (b1.toNat % 64) * 4096 + (b2.toNat % 64) * 64
                        + b3.toNat % 64, 4)

/-! ## `strconv.Quote` -/

/-- The digit table `lowerhex` of package `strconv`. -/
def lowerhex (n : Nat) : UInt8 :=
  if n % 16 < 10 then UInt8.ofNat (48 + n % 16) else UInt8.ofNat (87 + n % 16)

/-- Model of `strconv.IsPrint`.  Runes up to U+00FF are decided as in the Go source; for
    the others Go consults generated Unicode tables, here the parameter `tbl`. -/
def isPrint (tbl : Nat → Bool) (r : Nat) : Bool :=
  if r ≤ 0xFF then
    if 0x20 ≤ r ∧ r ≤ 0x7E then true
    else if 0xA1 ≤ r ∧ r ≤ 0xFF then decide (r ≠ 0xAD)
    else false
  else tbl r

/-- Hexadecimal digits of `r` from shift `4 * (k - 1)` down to `0`, as in the loops
    `for s := 12; s >= 0; s -= 4` of `appendEscapedRune`. -/
def hexDigits : Nat → Nat → GoString
  | 0, _ => []
  | k + 1, r => lowerhex (r / 16 ^ k) :: hexDigits k r

/-- Model of `strconv.appendEscapedRune` for `quote = '"'`, `ASCIIonly = false`,
    `graphicOnly = false`, on a rune returned by `decodeRune` (always a valid rune). -/
def appendEscapedRune (tbl : Nat → Bool) (r : Nat) : GoString :=
  if r = 0x22 ∨ r = 0x5C then [0x5C, UInt8.ofNat r]
  else if isPrint tbl r then utf8Encode r
  else if r = 0x07 then str "\\a"
  else if r = 0x08 then str "\\b"
  else if r = 0x0C then str "\\f"
  else if r = 0x0A then str "\\n"
  else if r = 0x0D then str "\\r"
  else if r = 0x09 then str "\\t"
  else if r = 0x0B then str "\\v"
  else if r < 0x20 ∨ r = 0x7F then str "\\x" ++ hexDigits 2 r
  else if r < 0x10000 then str "\\u" ++ hexDigits 4 r
  else str "\\U" ++ hexDigits 8 r

/-- The loop of `strconv.appendQuotedWith`: one rune (or one invalid byte) per step.
    `fuel` bounds the number of steps; the length of `s` is always enough. -/
def quoteBody (tbl : Nat → Bool) : Nat → GoString → GoString
  | 0, _ => []
  | _, [] => []
  | fuel + 1, b :: rest =>
    let rw := decodeRune (b :: rest)
    if rw.2 = 1 ∧ rw.1 = runeError then
      str "\\x" ++ [lowerhex (b.toNat / 16), lowerhex b.toNat] ++ quoteBody tbl fuel rest
    else
      appendEscapedRune tbl rw.1 ++ quoteBody tbl fuel ((b :: rest).drop rw.2)

/-- Model of `strconv.Quote`. -/
def strconvQuote (tbl : Nat → Bool) (s : GoString) : GoString :=
  [0x22] ++ quoteBody tbl s.length s ++ [0x22]

/-! ## `strconv.ParseFloat`

Only the error result of `strconv.ParseFloat(s, 64)` matters to the caller.  The model follows
`special`, `readFloat` and `underscoreOK` of `strconv/atof.go` byte by byte for the syntax.
The range error (`ErrRange`: the value is more than half a unit in the last place beyond the
largest `float64`, so it rounds to an infinity) is decided by exact arithmetic: for a decimal
literal on the value of all its digits and its decimal point, for a hexadecimal one on the
16 digits that `readFloat` keeps (the digits after them cannot move the value across the
bound). -/

/-- Model of `commonPrefixLenIgnoreCase(s, prefix)` for a lower-case `prefix`. -/
def commonPrefixLenIgnoreCase : GoString → GoString → Nat
  | c :: s, p :: prefix_ =>
    let c1 := if 0x41 ≤ c.toNat ∧ c.toNat ≤ 0x5A then c.toNat + 32 else c.toNat
    if c1 ≠ p.toNat then 0 else commonPrefixLenIgnoreCase s prefix_ + 1
  | _, _ => 0

/-- The `case 'i', 'I'` body of `special`, applied to `s` after `nsign` sign bytes. -/
def specialInf (nsign : Nat) (s : GoString) : Option Nat :=
  let n0 := commonPrefixLenIgnoreCase s (str "infinity")
  let n := if 3 < n0 ∧ n0 < 8 then 3 else n0
  if n = 3 ∨ n = 8 then some (nsign + n) else none

/-- Model of `special`: the number of bytes of a leading `Inf`, `Infinity` (optionally
    signed) or `NaN`, when there is one. -/
def special (s : GoString) : Option Nat :=
  match s with
  | [] => none
  | c :: rest =>
    if c.toNat = 0x2B ∨ c.toNat = 0x2D then specialInf 1 rest
    else if c.toNat = 0x69 ∨ c.toNat = 0x49 then specialInf 0 s
    else if c.toNat = 0x6E ∨ c.toNat = 0x4E then
      if commonPrefixLenIgnoreCase s (str "nan") = 3 then some 3 else none
    else none

/-- The helper `lower(c)`, that is `c | ('x' ^ 'X')`. -/
def lower (c : UInt8) : Nat := c.toNat ||| 0x20

/-- Model of `underscoreOK`, after the optional sign and base prefix have been skipped:
    `saw` is `0` for `'^'`, `1` for `'0'`, `2` for `'_'`, `3` for `'!'`. -/
def underscoreLoop (hex : Bool) : GoString → Nat → Bool
  | [], saw => saw ≠ 2
  | c :: rest, saw =>
    if (0x30 ≤ c.toNat ∧ c.toNat ≤ 0x39) ∨ (hex = true ∧ 0x61 ≤ lower c ∧ lower c ≤ 0x66) then
      underscoreLoop hex rest 1
    else if c.toNat = 0x5F then
      if saw ≠ 1 then false else underscoreLoop hex rest 2
    else if saw = 2 then false
    else underscoreLoop hex rest 3

/-- Model of `underscoreOK`. -/
def underscoreOK (s : GoString) : Bool :=
  let s1 := match s with
    | c :: rest => if c.toNat = 0x2D ∨ c.toNat = 0x2B then rest else s
    | [] => s
  match s1 with
  | c0 :: c1 :: rest =>
    if c0.toNat = 0x30 ∧ (lower c1 = 0x62 ∨ lower c1 = 0x6F ∨ lower c1 = 0x78) then
      underscoreLoop (lower c1 = 0x78) rest 1
    else underscoreLoop false s1 0
  | _ => underscoreLoop false s1 0

/-- Local variables of the digit loop of `readFloat`: `nd` counts the digits after the
    leading zeros, `dp` is the decimal point, `mantissa` holds the first `maxMantDigits`
    digits.  `digits` is the value of all `nd` decimal digits, which the conversion of a
    literal that is too long for `mantissa` works from. -/
structure FloatScan where
  sawdot : Bool
  sawdigits : Bool
  nd : Nat
  ndMant : Nat
  dp : Int
  mantissa : Nat
  trunc : Bool
  underscores : Bool
  digits : Nat
deriving DecidableEq, Repr

/-- State of `readFloat` before the digit loop. -/
def FloatScan.init : FloatScan :=
  { sawdot := false, sawdigits := false, nd := 0, ndMant := 0, dp := 0, mantissa := 0,
    trunc := false, underscores := false, digits := 0 }

/-- The digit loop (`loop:`) of `readFloat`; returns the state and the bytes not consumed. -/
def scanDigits (base maxMantDigits : Nat) : GoString → FloatScan → FloatScan × GoString
  | [], st => (st, [])
  | c :: rest, st =>
    if c.toNat = 0x5F then scanDigits base maxMantDigits rest { st with underscores := true }
    else if c.toNat = 0x2E then
      if st.sawdot then (st, c :: rest)
      else scanDigits base maxMantDigits rest { st with sawdot := true, dp := st.nd }
    else if 0x30 ≤ c.toNat ∧ c.toNat ≤ 0x39 then
      if c.toNat = 0x30 ∧ st.nd = 0 then
        scanDigits base maxMantDigits rest { st with sawdigits := true, dp := st.dp - 1 }
      else
        let st1 := { st with sawdigits := true, nd := st.nd + 1,
                             digits := st.digits * 10 + (c.toNat - 0x30) }
        let st2 :=
          if st.ndMant < maxMantDigits then
            { st1 with mantissa := st.mantissa * base + (c.toNat - 0x30),
                       ndMant := st.ndMant + 1 }
          else if c.toNat ≠ 0x30 then { st1 with trunc := true }
          else st1
        scanDigits base maxMantDigits rest st2
    else if base = 16 ∧ 0x61 ≤ lower c ∧ lower c ≤ 0x66 then
      let st1 := { st with sawdigits := true, nd := st.nd + 1 }
      let st2 :=
        if st.ndMant < maxMantDigits then
          { st1 with mantissa := st.mantissa * 16 + (lower c - 0x61 + 10),
                     ndMant := st.ndMant + 1 }
        else { st1 with trunc := true }
      scanDigits base maxMantDigits rest st2
    else (st, c :: rest)

/-- The exponent digit loop of `readFloat`: `e` (which stops growing at 10000), whether an
    underscore was seen, and the bytes not consumed. -/
def scanExp : GoString → Nat → Bool → Nat × Bool × GoString
  | [], e, u => (e, u, [])
  | c :: rest, e, u =>
    if c.toNat = 0x5F then scanExp rest e true
    else if 0x30 ≤ c.toNat ∧ c.toNat ≤ 0x39 then
      scanExp rest (if e < 10000 then e * 10 + (c.toNat - 0x30) else e) u
    else (e, u, c :: rest)

/-- What `readFloat` returns when `ok`: the mantissa, the exponent (binary for a
    hexadecimal literal) and the bytes after the number; and, for the exact value of a
    decimal literal, the value `digits` of its `nd` digits and the decimal point `dp` with
    the exponent added: the literal denotes `digits * 10 ^ (dp - nd)`. -/
structure FloatRead where
  mantissa : Nat
  exp : Int
  hex : Bool
  rest : GoString
  digits : Nat
  nd : Nat
  dp : Int
deriving DecidableEq, Repr

/-- The end of `readFloat`, from the optional exponent on.  `s` is the whole input, `st`
    and `rest` the result of the digit loop. -/
def readFloatTail (s : GoString) (hex : Bool) (st : FloatScan) (rest : GoString) :
    Option FloatRead :=
  if !st.sawdigits then none
  else
    let dp0 : Int := if st.sawdot then st.dp else st.nd
    let dp1 : Int := if hex then dp0 * 4 else dp0
    let ndMant1 : Nat := if hex then st.ndMant * 4 else st.ndMant
    let expChar : Nat := if hex then 0x70 else 0x65
    let finish (dp : Int) (underscores : Bool) (rest1 : GoString) : Option FloatRead :=
      if underscores ∧ !underscoreOK (s.take (s.length - rest1.length)) then none
      else some { mantissa := st.mantissa,
                  exp := if st.mantissa ≠ 0 then dp - ndMant1 else 0,
                  hex := hex, rest := rest1, digits := st.digits, nd := st.nd, dp := dp }
    match rest with
    | c :: rest1 =>
      if lower c = expChar then
        match rest1 with
        | [] => none
        | d :: rest2 =>
          let esign : Int := if d.toNat = 0x2D then -1 else 1
          let rest3 := if d.toNat = 0x2B ∨ d.toNat = 0x2D then rest2 else d :: rest2
          match rest3 with
          | [] => none
          | f :: _ =>
            if f.toNat < 0x30 ∨ f.toNat > 0x39 then none
            else
              let r := scanExp rest3 0 st.underscores
              finish (dp1 + r.1 * esign) r.2.1 r.2.2
      else if hex then none
      else finish dp1 st.underscores rest
    | [] => if hex then none else finish dp1 st.underscores rest

/-- Model of `readFloat`: `none` when it reports `ok = false`. -/
def readFloat (s : GoString) : Option FloatRead :=
  match s with
  | [] => none
  | c :: rest =>
    let s1 := if c.toNat = 0x2B ∨ c.toNat = 0x2D then rest else s
    match s1 with
    | c0 :: c1 :: c2 :: rest2 =>
      if c0.toNat = 0x30 ∧ lower c1 = 0x78 then
        let r := scanDigits 16 16 (c2 :: rest2) FloatScan.init
        readFloatTail s true r.1 r.2
      else
        let r := scanDigits 10 19 s1 FloatScan.init
        readFloatTail s false r.1 r.2
    | _ =>
      let r := scanDigits 10 19 s1 FloatScan.init
      readFloatTail s false r.1 r.2

/-- Half-way point between the largest finite `float64` and `2^1024`, the number
    `(2^54 - 1) * 2^970`: a value rounds to an infinity exactly when it is at least this
    large. -/
def float64Overflow : Nat :=
  179769313486231580793728971405303415079934132710037826936173778980444968292764750946649017977587207096330286416692887910946555547851940402630657488671505820681908902000708383676273854845817711531764475730270069855571366959622842914819860834936475292719074168444365510704342711559699508093042880177904174497792

/-- Range error of the conversion of a decimal literal with the `nd` digits `digits` (the
    first of them not `0`) and decimal point `dp`, whose value is `digits * 10 ^ (dp - nd)`:
    whether that value is at least `float64Overflow`.  A decimal point beyond 310 is an
    overflow and one below -330 is not, whatever the digits (the same shortcuts as in
    `decimal.floatBits`). -/
def decimalOverflows (digits nd : Nat) (dp : Int) : Bool :=
  if digits = 0 then false
  else if dp > 310 then true
  else if dp < -330 then false
  else if dp - nd ≥ 0 then decide (float64Overflow ≤ digits * 10 ^ (dp - nd).toNat)
  else decide (float64Overflow * 10 ^ (nd - dp).toNat ≤ digits)

/-- Range error of `atofHex`: the value is `mantissa * 2 ^ exp`. -/
def hexOverflows (mantissa : Nat) (exp : Int) : Bool :=
  if mantissa = 0 then false
  else if exp < 0 then false
  else decide (float64Overflow ≤ mantissa * 2 ^ exp.toNat)

/-- Whether `strconv.ParseFloat(s, 64)` returns a nil error: `s` is, in full, a special
    value or a decimal or hexadecimal floating-point literal, and its value does not
    round to an infinity. -/
def parseFloatOk (s : GoString) : Bool :=
  match special s with
  | some n => n = s.length
  | none =>
    match readFloat s with
    | none => false
    | some r =>
      r.rest.isEmpty &&
        !(if r.hex then hexOverflows r.mantissa r.exp
          else decimalOverflows r.digits r.nd r.dp)

/-! ## `strings.Split`, `strings.Join`, `url.Values` -/

/-- Model of `strings.Split(s, ",")`: the pieces of `s` between commas, in order; a string
    without a comma (the empty one included) gives one piece. -/
def stringsSplit : GoString → List GoString
  | [] => [[]]
  | c :: rest =>
    if c.toNat = 0x2C then [] :: stringsSplit rest
    else
      match stringsSplit rest with
      | [] => [[c]]
      | piece :: pieces => (c :: piece) :: pieces

/-- Model of `strings.Join(arr, ",")`. -/
def stringsJoin : List GoString → GoString
  | [] => []
  | [a] => a
  | a :: b :: rest => a ++ [0x2C] ++ stringsJoin (b :: rest)

/-- A Go `[]string`; `none` is the `nil` slice. -/
abbrev StringSlice := Option (List GoString)

/-- The Go expression `value[0]`; `none` models the index-out-of-range panic. -/
def index0 (value : StringSlice) : Option GoString :=
  match value with
  | some (v :: _) => some v
  | _ => none

/-- The type `url.Values`, a `map[string][]string`, as an association list. -/
abbrev Values := List (GoString × StringSlice)

/-- Map lookup `values[key]`. -/
def Values.get (values : Values) (key : GoString) : Option StringSlice :=
  match values with
  | [] => none
  | (k, v) :: rest => if k = key then some v else Values.get rest key

/-- Model of `url.Values.Set`: `values[key] = []string{value}`. -/
def Values.set (values : Values) (key value : GoString) : Values :=
  match values with
  | [] => [(key, some [value])]
  | (k, v) :: rest =>
    if k = key then (k, some [value]) :: rest else (k, v) :: Values.set rest key value

/-! ## `quote` (src/utils.go) -/

/-- The inner loop of `quote`: an element that `strconv.ParseFloat` rejects is replaced by
    `strconv.Quote(element)`. -/
def quoteElement (tbl : Nat → Bool) (element : GoString) : GoString :=
  if parseFloatOk element then element else strconvQuote tbl element

/-- One iteration of the loop `for key, value := range values` of `quote`, on the map
    `values`; `none` is a panic at `value[0]`. -/
def quoteStep (tbl : Nat → Bool) (values : Values) (key : GoString) (value : StringSlice) :
    Option Values :=
  if key = str "startkey" ∨ (key = str "endkey" ∧ value ≠ none) then
    match index0 value with
    | none => none
    | some v0 =>
      let arr := (stringsSplit v0).map (quoteElement tbl)
      let joined := stringsJoin arr
      let enclosed := str "[" ++ joined ++ str "]"
      some (values.set key enclosed)
  else
    match index0 value with
    | none => none
    | some v0 =>
      if v0 ≠ str "true" ∧ v0 ≠ str "false" then
        some (values.set key (strconvQuote tbl v0))
      else some values

/-- The loop of `quote` over the entries still to be visited.  An iteration replaces only
    the value of the key it visits, so each entry is seen with its original value. -/
def quoteLoop (tbl : Nat → Bool) : List (GoString × StringSlice) → Values → Option Values
  | [], values => some values
  | (key, value) :: rest, values =>
    match quoteStep tbl values key value with
    | none => none
    | some values1 => quoteLoop tbl rest values1

/-- Model of `quote(values url.Values) url.Values`; `none` is a panic. -/
def quote (tbl : Nat → Bool) (values : Values) : Option Values :=
  quoteLoop tbl values values


/-! ## `QueryParameters` and `NewQueryParameters` (src/structs.go) -/

/-- The struct `QueryParameters`; Go `int` fields are integers, `string` fields Go strings. -/
structure QueryParameters where
  Conflicts : Bool
  Descending : Bool
  EndKey : GoString
  EndKeyDocId : GoString
  Group : Bool
  GroupLevel : Int
  IncludeDocs : Bool
  Attachments : Bool
  AttEncodingInfo : Bool
  InclusiveEnd : Bool
  Key : GoString
  Limit : Int
  Reduce : Bool
  Skip : Int
  Stale : GoString
  StartKey : GoString
  StartKeyDocId : GoString
  UpdateSeq : Bool
deriving DecidableEq, Repr

/-- The zero value of `QueryParameters`: what a composite literal gives to the fields it
    does not mention. -/
def QueryParameters.zero : QueryParameters :=
  { Conflicts := false, Descending := false, EndKey := [], EndKeyDocId := [], Group := false,
    GroupLevel := 0, IncludeDocs := false, Attachments := false, AttEncodingInfo := false,
    InclusiveEnd := false, Key := [], Limit := 0, Reduce := false, Skip := 0, Stale := [],
    StartKey := [], StartKeyDocId := [], UpdateSeq := false }

/-- Model of `NewQueryParameters`: the composite literal of the source, field by field. -/
def NewQueryParameters : QueryParameters :=
  { QueryParameters.zero with
    Conflicts := false
    Descending := false
    Group := false
    IncludeDocs := false
    Attachments := false
    AttEncodingInfo := false
    InclusiveEnd := true
    Reduce := false
    Skip := 0
    UpdateSeq := false }

/-! ## `encoding/json`: reading a JSON text

`json.Unmarshal` first checks that the whole input is one JSON value (the scanner of
`encoding/json`, RFC 8259 with a nesting limit of 10000) and then stores it into the Go
value.  `parseJSON` models the first step together with the decoding of string literals
(`unquote`); the second step is modelled per target type below. -/

/-- A JSON value as `encoding/json` reads it.  A string is the Go string that `unquote`
    produces (escapes resolved, invalid UTF-8 replaced by U+FFFD).  A number keeps its
    literal: the sign, the value of the integer part, and the text of the fraction and
    exponent (empty for an integer literal). -/
inductive JValue where
  | null
  | bool (b : Bool)
  | number (neg : Bool) (int : Nat) (rest : GoString)
  | string (s : GoString)
  | array (items : List JValue)
  | object (members : List (GoString × JValue))

/-- Skips the JSON white space (space, tab, carriage return, line feed). -/
def skipWs : GoString → GoString
  | [] => []
  | c :: rest =>
    if c.toNat = 0x20 ∨ c.toNat = 0x09 ∨ c.toNat = 0x0D ∨ c.toNat = 0x0A then skipWs rest
    else c :: rest

/-- Value of a hexadecimal digit, if `c` is one. -/
def hexVal (c : UInt8) : Option Nat :=
  if 0x30 ≤ c.toNat ∧ c.toNat ≤ 0x39 then some (c.toNat - 0x30)
  else if 0x61 ≤ c.toNat ∧ c.toNat ≤ 0x66 then some (c.toNat - 0x61 + 10)
  else if 0x41 ≤ c.toNat ∧ c.toNat ≤ 0x46 then some (c.toNat - 0x41 + 10)
  else none

/-- Model of `getu4`: the value of a leading `\uXXXX`, if `s` starts with one. -/
def getu4 (s : GoString) : Option Nat :=
  match s with
  | b :: u :: h1 :: h2 :: h3 :: h4 :: _ =>
    if b.toNat = 0x5C ∧ u.toNat = 0x75 then
      match hexVal h1, hexVal h2, hexVal h3, hexVal h4 with
      | some a, some b, some c, some d => some (a * 4096 + b * 256 + c * 16 + d)
      | _, _, _, _ => none
    else none
  | _ => none

/-- The body of a JSON string literal, after its opening quote: the decoded Go string (as
    `unquote` builds it) and the input after the closing quote; `none` for what the scanner
    rejects. -/
def parseString : Nat → GoString → Option (GoString × GoString)
  | 0, _ => none
  | _, [] => none
  | fuel + 1, c :: rest =>
    if c.toNat = 0x22 then some ([], rest)
    else if c.toNat = 0x5C then
      match rest with
      | [] => none
      | e :: rest1 =>
        let simple (b : UInt8) : Option (GoString × GoString) :=
          (parseString fuel rest1).map (fun r => (b :: r.1, r.2))
        if e.toNat = 0x22 then simple 0x22
        else if e.toNat = 0x5C then simple 0x5C
        else if e.toNat = 0x2F then simple 0x2F
        else if e.toNat = 0x62 then simple 0x08
        else if e.toNat = 0x66 then simple 0x0C
        else if e.toNat = 0x6E then simple 0x0A
        else if e.toNat = 0x72 then simple 0x0D
        else if e.toNat = 0x74 then simple 0x09
        else if e.toNat = 0x75 then
          match getu4 (c :: rest) with
          | none => none
          | some rr =>
            let after := rest1.drop 4
            if 0xD800 ≤ rr ∧ rr < 0xE000 then
              match getu4 after with
              | some rr1 =>
                if rr < 0xDC00 ∧ 0xDC00 ≤ rr1 ∧ rr1 < 0xE000 then
                  (parseString fuel (after.drop 6)).map (fun r =>
                    (utf8Encode ((rr - 0xD800) * 1024 + (rr1 - 0xDC00) + 0x10000) ++ r.1, r.2))
                else (parseString fuel after).map (fun r => (utf8Encode runeError ++ r.1, r.2))
              | none => (parseString fuel after).map (fun r => (utf8Encode runeError ++ r.1, r.2))
            else (parseString fuel after).map (fun r => (utf8Encode rr ++ r.1, r.2))
        else none
    else if c.toNat < 0x20 then none
    else if c.toNat < 0x80 then (parseString fuel rest).map (fun r => (c :: r.1, r.2))
    else
      let rw := decodeRune (c :: rest)
      (parseString fuel ((c :: rest).drop rw.2)).map (fun r => (utf8Encode rw.1 ++ r.1, r.2))

/-- Reads a run of decimal digits: their value as a number, the digits, and the rest. -/
def scanNat : GoString → Nat → Nat × GoString × GoString
  | [], acc => (acc, [], [])
  | c :: rest, acc =>
    if 0x30 ≤ c.toNat ∧ c.toNat ≤ 0x39 then
      let r := scanNat rest (acc * 10 + (c.toNat - 0x30))
      (r.1, c :: r.2.1, r.2.2)
    else (acc, [], c :: rest)

/-- The optional fraction and exponent of a JSON number: their text and the rest. -/
def parseFracExp (s : GoString) : Option (GoString × GoString) :=
  let frac : Option (GoString × GoString) :=
    match s with
    | c :: rest =>
      if c.toNat = 0x2E then
        let r := scanNat rest 0
        if r.2.1 = [] then none else some (c :: r.2.1, r.2.2)
      else some ([], s)
    | [] => some ([], s)
  match frac with
  | none => none
  | some (f, s1) =>
    match s1 with
    | c :: rest =>
      if c.toNat = 0x65 ∨ c.toNat = 0x45 then
        let signed : GoString × GoString :=
          match rest with
          | d :: rest1 => if d.toNat = 0x2B ∨ d.toNat = 0x2D then ([d], rest1) else ([], rest)
          | [] => ([], rest)
        let r := scanNat signed.2 0
        if r.2.1 = [] then none else some (f ++ c :: signed.1 ++ r.2.1, r.2.2)
      else some (f, s1)
    | [] => some (f, s1)

/-- A JSON number literal whose sign has been read: `0` or a digit run without a leading
    zero, then the optional fraction and exponent. -/
def parseNumber (neg : Bool) (s : GoString) : Option (JValue × GoString) :=
  match s with
  | [] => none
  | c :: rest =>
    if c.toNat = 0x30 then
      (parseFracExp rest).map (fun r => (JValue.number neg 0 r.1, r.2))
    else if 0x31 ≤ c.toNat ∧ c.toNat ≤ 0x39 then
      let r := scanNat s 0
      (parseFracExp r.2.2).map (fun q => (JValue.number neg r.1 q.1, q.2))
    else none

/-- What the parser is reading: a value, the rest of an array, or the rest of an object. -/
inductive ParseMode where
  | value
  | elems (acc : List JValue)
  | members (acc : List (GoString × JValue))

/-- The nesting limit `maxNestingDepth` of the scanner of `encoding/json`. -/
def maxNestingDepth : Nat := 10000

/-- Recursive-descent reader for one JSON value at nesting depth `depth`; returns the value
    and the input after it.  `fuel` bounds the number of calls. -/
def parseValue : Nat → ParseMode → Nat → GoString → Option (JValue × GoString)
  | 0, _, _, _ => none
  | fuel + 1, .value, depth, s =>
    match skipWs s with
    | [] => none
    | c :: rest =>
      if c.toNat = 0x7B then
        if depth + 1 > maxNestingDepth then none
        else
          match skipWs rest with
          | [] => none
          | d :: rest1 =>
            if d.toNat = 0x7D then some (JValue.object [], rest1)
            else parseValue fuel (.members []) (depth + 1) (d :: rest1)
      else if c.toNat = 0x5B then
        if depth + 1 > maxNestingDepth then none
        else
          match skipWs rest with
          | [] => none
          | d :: rest1 =>
            if d.toNat = 0x5D then some (JValue.array [], rest1)
            else parseValue fuel (.elems []) (depth + 1) (d :: rest1)
      else if c.toNat = 0x22 then
        (parseString (rest.length + 1) rest).map (fun r => (JValue.string r.1, r.2))
      else if c.toNat = 0x2D then parseNumber true rest
      else if 0x30 ≤ c.toNat ∧ c.toNat ≤ 0x39 then parseNumber false (c :: rest)
      else if (c :: rest).take 4 = str "true" then some (JValue.bool true, rest.drop 3)
      else if (c :: rest).take 5 = str "false" then some (JValue.bool false, rest.drop 4)
      else if (c :: rest).take 4 = str "null" then some (JValue.null, rest.drop 3)
      else none
  | fuel + 1, .elems acc, depth, s =>
    match parseValue fuel .value depth s with
    | none => none
    | some (v, rest) =>
      match skipWs rest with
      | [] => none
      | c :: rest1 =>
        if c.toNat = 0x2C then parseValue fuel (.elems (acc ++ [v])) depth rest1
        else if c.toNat = 0x5D then some (JValue.array (acc ++ [v]), rest1)
        else none
  | fuel + 1, .members acc, depth, s =>
    match skipWs s with
    | [] => none
    | q :: rest =>
      if q.toNat ≠ 0x22 then none
      else
        match parseString (rest.length + 1) rest with
        | none => none
        | some (key, rest1) =>
          match skipWs rest1 with
          | [] => none
          | colon :: rest2 =>
            if colon.toNat ≠ 0x3A then none
            else
              match parseValue fuel .value depth rest2 with
              | none => none
              | some (v, rest3) =>
                match skipWs rest3 with
                | [] => none
                | c :: rest4 =>
                  if c.toNat = 0x2C then
                    parseValue fuel (.members (acc ++ [(key, v)])) depth rest4
                  else if c.toNat = 0x7D then some (JValue.object (acc ++ [(key, v)]), rest4)
                  else none

/-- The JSON value that `data` is, when `data` is in full one JSON text (white space around
    it allowed); `none` when the scanner of `encoding/json` reports a syntax error. -/
def parseJSON (data : GoString) : Option JValue :=
  match parseValue (2 * data.length + 2) .value 0 data with
  | none => none
  | some (v, rest) => if skipWs rest = [] then some v else none

/-! ## `encoding/json`: storing a JSON object into a struct -/

/-- Whether the byte `n` of a field name and the byte `k` of a JSON key are equal up to
    the case of ASCII letters. -/
def eqFoldByte (n k : UInt8) : Bool :=
  decide (n = k) ||
    (decide (0x61 ≤ (n.toNat ||| 0x20)) && decide ((n.toNat ||| 0x20) ≤ 0x7A) &&
      decide ((n.toNat ||| 0x20) = (k.toNat ||| 0x20)))

/-- Case-insensitive match of an ASCII field name against a JSON key, as `encoding/json`
    does it (Unicode simple folding): ASCII letters match in either case, and besides
    `k`/`K` matches the Kelvin sign U+212A and `s`/`S` the long s U+017F. -/
def foldEq : GoString → GoString → Bool
  | [], [] => true
  | [], _ :: _ => false
  | _ :: _, [] => false
  | n :: name, k :: key =>
    if eqFoldByte n k then foldEq name key
    else if (n.toNat ||| 0x20) = 0x6B then
      match k :: key with
      | a :: b :: c :: key3 =>
        if a.toNat = 0xE2 ∧ b.toNat = 0x84 ∧ c.toNat = 0xAA then foldEq name key3 else false
      | _ => false
    else if (n.toNat ||| 0x20) = 0x73 then
      match k :: key with
      | a :: b :: key2 =>
        if a.toNat = 0xC5 ∧ b.toNat = 0xBF then foldEq name key2 else false
      | _ => false
    else false

/-- The struct field that a JSON key selects: the field with exactly that name if there is
    one, else the first field whose name matches case-insensitively. -/
def lookupField {F : Type} (fields : List (GoString × F)) (key : GoString) : Option F :=
  match fields.find? (fun f => decide (f.1 = key)) with
  | some f => some f.2
  | none => (fields.find? (fun f => foldEq f.1 key)).map Prod.snd

/-- Storing a JSON value into a Go `string`: the new value and whether `encoding/json`
    records an `UnmarshalTypeError`.  `null` leaves the field as it is. -/
def storeString (old : GoString) (v : JValue) : GoString × Bool :=
  match v with
  | .string s => (s, false)
  | .null => (old, false)
  | _ => (old, true)

/-- Storing a JSON value into a Go `bool`. -/
def storeBool (old : Bool) (v : JValue) : Bool × Bool :=
  match v with
  | .bool b => (b, false)
  | .null => (old, false)
  | _ => (old, true)

/-- Storing a JSON value into a Go `int` or `int64`: the literal has to be an integer
    literal with a value in the 64-bit range. -/
def storeInt (old : Int) (v : JValue) : Int × Bool :=
  match v with
  | .number neg n rest =>
    let x : Int := if neg then -(n : Int) else (n : Int)
    if rest = [] ∧ -9223372036854775808 ≤ x ∧ x ≤ 9223372036854775807 then (x, false)
    else (old, true)
  | .null => (old, false)
  | _ => (old, true)

/-! ## `Error` and `newError` (src/structs.go, src/utils.go) -/

/-- The struct `Error`.  The field `Type` of the source is `Type_` here (`Type` is a
    reserved word). -/
structure Error where
  Method : GoString
  Url : GoString
  StatusCode : Int
  Type_ : GoString
  Reason : GoString
deriving DecidableEq, Repr

/-- The fields of `Error`. -/
inductive ErrorField where
  | method | url | statusCode | type | reason
deriving DecidableEq, Repr

/-- The JSON names of the fields of `Error`: the field name, or the `json` tag (`error` for
    `Type`). -/
def errorFields : List (GoString × ErrorField) :=
  [(str "Method", .method), (str "Url", .url), (str "StatusCode", .statusCode),
   (str "error", .type), (str "Reason", .reason)]

/-- Stores one member of a JSON object into an `Error`; the flag says whether an
    `UnmarshalTypeError` has been recorded so far.  Unknown keys are skipped. -/
def storeErrorMember (acc : Error × Bool) (member : GoString × JValue) : Error × Bool :=
  match lookupField errorFields member.1 with
  | none => acc
  | some .method =>
    let r := storeString acc.1.Method member.2
    ({ acc.1 with Method := r.1 }, acc.2 || r.2)
  | some .url =>
    let r := storeString acc.1.Url member.2
    ({ acc.1 with Url := r.1 }, acc.2 || r.2)
  | some .statusCode =>
    let r := storeInt acc.1.StatusCode member.2
    ({ acc.1 with StatusCode := r.1 }, acc.2 || r.2)
  | some .type =>
    let r := storeString acc.1.Type_ member.2
    ({ acc.1 with Type_ := r.1 }, acc.2 || r.2)
  | some .reason =>
    let r := storeString acc.1.Reason member.2
    ({ acc.1 with Reason := r.1 }, acc.2 || r.2)

/-- The errors of `json.Unmarshal`: a `SyntaxError` of the scanner, or an
    `UnmarshalTypeError` (a JSON value that does not fit the Go type). -/
inductive JsonError where
  | malformed
  | unmarshalType
deriving DecidableEq, Repr

/-- The zero value `Error{}`. -/
def Error.zero : Error := { Method := [], Url := [], StatusCode := 0, Type_ := [], Reason := [] }

/-- Model of `json.Unmarshal(body, &error)` for `error := &Error{}`: the pointer after the
    call, `none` for a nil pointer (the JSON literal `null` sets the pointer to nil). -/
def unmarshalError (body : GoString) : Except JsonError (Option Error) :=
  match parseJSON body with
  | none => .error .malformed
  | some .null => .ok none
  | some (.object members) =>
    let r := members.foldl storeErrorMember (Error.zero, false)
    if r.2 then .error .unmarshalType else .ok (some r.1)
  | some _ => .error .unmarshalType

/-- An error of the transport while the body is read (`ioutil.ReadAll`). -/
structure ReadError where
  message : GoString
deriving DecidableEq, Repr

/-- The part of `http.Request` that `newError` reads; `URL` is `res.Request.URL.String()`. -/
structure Request where
  Method : GoString
  URL : GoString
deriving DecidableEq, Repr

/-- The part of `http.Response` that `newError` reads; `Body` is what `ioutil.ReadAll`
    returns for `res.Body`. -/
structure Response where
  Body : Except ReadError GoString
  Request : Request
  StatusCode : Int

/-- What `newError` does: it returns the error of reading the body, the error of
    `json.Unmarshal`, or a `*Error`; or it panics dereferencing a nil `*Error`. -/
inductive NewErrorResult where
  | readFailure (err : ReadError)
  | decodeFailure (err : JsonError)
  | couchError (e : Error)
  | nilPanic
deriving DecidableEq, Repr

/-- Model of `newError`. -/
def newError (res : Response) : NewErrorResult :=
  match res.Body with
  | .error err => .readFailure err
  | .ok body =>
    match unmarshalError body with
    | .error err => .decodeFailure err
    | .ok none => .nilPanic
    | .ok (some error) =>
      .couchError { error with
        Method := res.Request.Method
        Url := res.Request.URL
        StatusCode := res.StatusCode }

/-! ## `Document`, `Attachment` and their JSON encoding (src/structs.go) -/

/-- The struct `Attachment`; `Length` is an `int64`. -/
structure Attachment where
  Follows : Bool
  ContentType : GoString
  Length : Int
deriving DecidableEq, Repr

/-- A `map[string]Attachment` that is not nil, as an association list. -/
abbrev AttachmentMap := List (GoString × Attachment)

/-- Map lookup `m[key]` with the `ok` result. -/
def mapGet {V : Type} (m : List (GoString × V)) (key : GoString) : Option V :=
  match m with
  | [] => none
  | (k, v) :: rest => if k = key then some v else mapGet rest key

/-- Map assignment `m[key] = value`. -/
def mapSet {V : Type} (m : List (GoString × V)) (key : GoString) (value : V) :
    List (GoString × V) :=
  match m with
  | [] => [(key, value)]
  | (k, v) :: rest => if k = key then (k, value) :: rest else (k, v) :: mapSet rest key value

/-- The struct `Document`; `Attachments = none` is the nil map. -/
structure Document where
  Id : GoString
  Rev : GoString
  Attachments : Option AttachmentMap
deriving DecidableEq, Repr

/-- Lookup in the attachments of a document; a nil map has no entries. -/
def Document.attachment (d : Document) (name : GoString) : Option Attachment :=
  match d.Attachments with
  | none => none
  | some m => mapGet m name

/-- The loop with which `encoding/json` writes a Go string: every byte that is not part of
    a well-formed UTF-8 sequence is replaced by U+FFFD, everything else is kept.  (Escapes
    that the encoder introduces are undone by the decoder and are not modelled.) -/
def coerceLoop : Nat → GoString → GoString
  | 0, _ => []
  | _, [] => []
  | fuel + 1, b :: rest =>
    let rw := decodeRune (b :: rest)
    if rw.2 = 1 ∧ rw.1 = runeError then utf8Encode runeError ++ coerceLoop fuel rest
    else (b :: rest).take rw.2 ++ coerceLoop fuel ((b :: rest).drop rw.2)

/-- The Go string that a JSON reader gets back from the string literal that `json.Marshal`
    writes for `s`. -/
def toValidUTF8 (s : GoString) : GoString := coerceLoop s.length s

/-- Byte-wise lexicographic order of Go strings, the order in which `json.Marshal` writes
    the keys of a map. -/
def bytesLe : GoString → GoString → Bool
  | [], _ => true
  | _ :: _, [] => false
  | a :: as, b :: bs =>
    if a.toNat < b.toNat then true
    else if b.toNat < a.toNat then false
    else bytesLe as bs

/-- Inserts a map entry into a list of entries sorted by key. -/
def insertByKey {V : Type} (e : GoString × V) : List (GoString × V) → List (GoString × V)
  | [] => [e]
  | f :: rest => if bytesLe e.1 f.1 then e :: f :: rest else f :: insertByKey e rest

/-- The entries of a map sorted by key. -/
def sortByKey {V : Type} : List (GoString × V) → List (GoString × V)
  | [] => []
  | e :: rest => insertByKey e (sortByKey rest)

/-- The JSON value that `json.Marshal` writes for an `Attachment`
    (tags `follows`, `content_type`, `length`). -/
def marshalAttachment (a : Attachment) : JValue :=
  .object [(str "follows", .bool a.Follows),
           (str "content_type", .string (toValidUTF8 a.ContentType)),
           (str "length", .number (decide (a.Length < 0)) a.Length.natAbs [])]

/-- The JSON value that `json.Marshal` writes for a `Document` (tags `_id`, `_rev`,
    `_attachments`, all `omitempty`: an empty string and a map without entries are left
    out); the entries of the map are written in the order of their keys. -/
def marshalDocument (d : Document) : JValue :=
  .object (
    (if d.Id = [] then [] else [(str "_id", JValue.string (toValidUTF8 d.Id))]) ++
    (if d.Rev = [] then [] else [(str "_rev", JValue.string (toValidUTF8 d.Rev))]) ++
    (match d.Attachments with
      | none => []
      | some [] => []
      | some (e :: m) =>
        [(str "_attachments",
          JValue.object ((sortByKey (e :: m)).map
            (fun p => (toValidUTF8 p.1, marshalAttachment p.2))))]))

/-- The fields of `Attachment`. -/
inductive AttachmentField where
  | follows | contentType | length
deriving DecidableEq, Repr

/-- The JSON names of the fields of `Attachment`. -/
def attachmentFields : List (GoString × AttachmentField) :=
  [(str "follows", .follows), (str "content_type", .contentType), (str "length", .length)]

/-- Stores one member of a JSON object into an `Attachment`. -/
def storeAttachmentMember (acc : Attachment × Bool) (member : GoString × JValue) :
    Attachment × Bool :=
  match lookupField attachmentFields member.1 with
  | none => acc
  | some .follows =>
    let r := storeBool acc.1.Follows member.2
    ({ acc.1 with Follows := r.1 }, acc.2 || r.2)
  | some .contentType =>
    let r := storeString acc.1.ContentType member.2
    ({ acc.1 with ContentType := r.1 }, acc.2 || r.2)
  | some .length =>
    let r := storeInt acc.1.Length member.2
    ({ acc.1 with Length := r.1 }, acc.2 || r.2)

/-- The zero value `Attachment{}`. -/
def Attachment.zero : Attachment := { Follows := false, ContentType := [], Length := 0 }

/-- Storing a JSON value into a fresh map element of type `Attachment`. -/
def storeAttachment (v : JValue) : Attachment × Bool :=
  match v with
  | .object members => members.foldl storeAttachmentMember (Attachment.zero, false)
  | .null => (Attachment.zero, false)
  | _ => (Attachment.zero, true)

/-- Stores one member of a JSON object into a `map[string]Attachment`. -/
def storeMapEntry (acc : AttachmentMap × Bool) (member : GoString × JValue) :
    AttachmentMap × Bool :=
  let r := storeAttachment member.2
  (mapSet acc.1 member.1 r.1, acc.2 || r.2)

/-- Storing a JSON value into a field of type `map[string]Attachment`: an object fills the
    map (allocating it when it is nil), `null` sets the map to nil. -/
def storeAttachments (old : Option AttachmentMap) (v : JValue) : Option AttachmentMap × Bool :=
  match v with
  | .object members =>
    let r := members.foldl storeMapEntry (old.getD [], false)
    (some r.1, r.2)
  | .null => (none, false)
  | _ => (old, true)

/-- The fields of `Document`. -/
inductive DocumentField where
  | id | rev | attachments
deriving DecidableEq, Repr

/-- The JSON names of the fields of `Document`. -/
def documentFields : List (GoString × DocumentField) :=
  [(str "_id", .id), (str "_rev", .rev), (str "_attachments", .attachments)]

/-- Stores one member of a JSON object into a `Document`. -/
def storeDocumentMember (acc : Document × Bool) (member : GoString × JValue) :
    Document × Bool :=
  match lookupField documentFields member.1 with
  | none => acc
  | some .id =>
    let r := storeString acc.1.Id member.2
    ({ acc.1 with Id := r.1 }, acc.2 || r.2)
  | some .rev =>
    let r := storeString acc.1.Rev member.2
    ({ acc.1 with Rev := r.1 }, acc.2 || r.2)
  | some .attachments =>
    let r := storeAttachments acc.1.Attachments member.2
    ({ acc.1 with Attachments := r.1 }, acc.2 || r.2)

/-- The zero value `Document{}`. -/
def Document.zero : Document := { Id := [], Rev := [], Attachments := none }

/-- Model of `json.Unmarshal(data, &d)` for a fresh `var d Document`, on the JSON value
    that `data` is. -/
def unmarshalDocument (v : JValue) : Except JsonError Document :=
  match v with
  | .object members =>
    let r := members.foldl storeDocumentMember (Document.zero, false)
    if r.2 then .error .unmarshalType else .ok r.1
  | .null => .ok Document.zero
  | _ => .error .unmarshalType

/-! ## `mimeType` and `writeJSON` (src/utils.go) -/

/-- The loop of `filepath.Ext` (Unix), walking the path from its end: `acc` holds the bytes
    already passed. -/
def extLoop : GoString → GoString → GoString
  | [], _ => []
  | c :: before, acc =>
    if c.toNat = 0x2F then []
    else if c.toNat = 0x2E then c :: acc
    else extLoop before (c :: acc)

/-- Model of `filepath.Ext`: the suffix of the last path element that starts at its last
    dot; empty if that element has no dot. -/
def filepathExt (path : GoString) : GoString := extLoop path.reverse []

/-- Model of `filepath.Base` (Unix): the last element of the path, trailing slashes
    removed; `.` for the empty path and `/` for a path of slashes only. -/
def filepathBase (path : GoString) : GoString :=
  if path = [] then str "."
  else
    let stripped := (path.reverse.dropWhile (fun c => c.toNat = 0x2F)).reverse
    let last := (stripped.reverse.takeWhile (fun c => c.toNat ≠ 0x2F)).reverse
    if last = [] then str "/" else last

/-- Model of `mimeType`.  `mime.TypeByExtension` looks the extension up in a table that
    depends on the system (built-in entries plus the system's MIME files): the parameter
    `typeByExtension`. -/
def mimeType (typeByExtension : GoString → GoString) (name : GoString) : GoString :=
  let ext := filepathExt name
  typeByExtension ext

/-- A table for `mime.TypeByExtension` that holds what `TestMimeType` of
    src/client_test.go expects; unknown extensions give the empty string. -/
def testTypeByExtension (ext : GoString) : GoString :=
  if ext = str ".jpg" then str "image/jpeg"
  else if ext = str ".pdf" then str "application/pdf"
  else if ext = str ".text" then str "text/plain; charset=utf-8"
  else if ext = str ".zip" then str "application/zip"
  else if ext = str ".avi" then str "video/x-msvideo"
  else []

/-- An I/O error of the operating system or of the underlying writer. -/
structure IOError where
  message : GoString
deriving DecidableEq, Repr

/-- The part of an open `*os.File` that `writeJSON` uses: `file.Name()` and the result of
    `file.Stat()` (the size, or an error). -/
structure File where
  name : GoString
  stat : Except IOError Int

/-- One part of a multipart body: its MIME header and the bytes written to it. -/
structure Part where
  header : List (GoString × GoString)
  body : GoString
deriving DecidableEq, Repr

/-- A `*multipart.Writer` together with the behaviour of the writer beneath it: the parts
    created so far, the error that creating the next part meets (if any), and the failure
    that the next write to a part meets (if any: the number of bytes that still get
    through, and the error). -/
structure MultipartWriter where
  parts : List Part
  createPartError : Option IOError
  writeError : Option (Nat × IOError)
deriving DecidableEq, Repr

/-- The state after `writeJSON`: the document behind the pointer, the writer, and the
    returned error (`none` for nil). -/
structure WriteJSONResult where
  document : Document
  writer : MultipartWriter
  err : Option IOError
deriving DecidableEq, Repr

/-- Model of `writeJSON`.  `encode` is the text that `json.Marshal` writes for a JSON value;
    `json.Marshal` cannot fail on a `Document`, whose fields are strings, booleans and
    integers. -/
def writeJSON (typeByExtension : GoString → GoString) (encode : JValue → GoString)
    (document : Document) (writer : MultipartWriter) (file : File) : WriteJSONResult :=
  let partHeaders := [(str "Content-Type", str "application/json")]
  match writer.createPartError with
  | some err => { document := document, writer := writer, err := some err }
  | none =>
    match file.stat with
    | .error err =>
      { document := document,
        writer := { writer with parts := writer.parts ++ [{ header := partHeaders, body := [] }] },
        err := some err }
    | .ok size =>
      let path := file.name
      let attachment : Attachment :=
        { Follows := true, ContentType := mimeType typeByExtension path, Length := size }
      let filename := filepathBase path
      let document1 : Document :=
        { document with Attachments := some (mapSet [] filename attachment) }
      let bytes := encode (marshalDocument document1)
      match writer.writeError with
      | some (n, err) =>
        { document := document1,
          writer := { writer with
            parts := writer.parts ++ [{ header := partHeaders, body := bytes.take n }] },
          err := some err }
      | none =>
        { document := document1,
          writer := { writer with
            parts := writer.parts ++ [{ header := partHeaders, body := bytes }] },
          err := none }

/-! ## `DesignDocument.Name` and `NewUser` (src/structs.go) -/

/-- Model of `strings.HasPrefix(s, pre)`. -/
def stringsHasPrefix : GoString → GoString → Bool
  | _, [] => true
  | [], _ :: _ => false
  | c :: s, p :: pre => decide (c = p) && stringsHasPrefix s pre

/-- Model of `strings.TrimPrefix(s, pre)`: `s` without the leading `pre` when it has one,
    else `s`. -/
def stringsTrimPrefix (s pre : GoString) : GoString :=
  if stringsHasPrefix s pre then s.drop pre.length else s

/-- The struct `DesignDocumentView`. -/
structure DesignDocumentView where
  Map : GoString
  Reduce : GoString
deriving DecidableEq, Repr

/-- The struct `DesignDocument`, which embeds `Document`; `Views = none` is the nil map. -/
structure DesignDocument extends Document where
  Language : GoString
  Views : Option (List (GoString × DesignDocumentView))
deriving DecidableEq, Repr

/-- Model of the method `DesignDocument.Name`. -/
def DesignDocument.Name (dd : DesignDocument) : GoString :=
  stringsTrimPrefix dd.Id (str "_design/")

/-- The struct `User`, which embeds `Document`.  The field `Type` of the source is `Type_`
    here; `Roles` is a slice. -/
structure User extends Document where
  DerivedKey : GoString
  Name : GoString
  Roles : StringSlice
  Password : GoString
  PasswordSha : GoString
  PasswordScheme : GoString
  Salt : GoString
  Type_ : GoString
  Iterations : Int
deriving DecidableEq, Repr

/-- Model of `NewUser`: the composite literal of the source; the fields it does not name
    (`Rev`, `Attachments`, `Iterations`) take their zero values. -/
def NewUser (name password : GoString) (roles : StringSlice) : User :=
  { toDocument := { Document.zero with Id := str "org.couchdb.user:" ++ name }
    DerivedKey := str ""
    Name := name
    Roles := roles
    Password := password
    PasswordSha := str ""
    PasswordScheme := str ""
    Salt := str ""
    Type_ := str "user"
    Iterations := 0 }

/-! ## JSON texts -/

/-- Whether `text` is, in full, a syntactically valid JSON text: the scanner of
    `encoding/json` (RFC 8259) accepts it. -/
def validJSON (text : GoString) : Bool := (parseJSON text).isSome

/-! ## Auxiliary definitions used to state lemmas -/

/-- The value that the iteration of `quote` visiting `key` leaves under `key`, when the
    visited value is `value` and its first element is `v0`. -/
def quotedValue (tbl : Nat → Bool) (key : GoString) (value : StringSlice) (v0 : GoString) :
    StringSlice :=
  if key = str "startkey" ∨ key = str "endkey" then
    some [str "[" ++ stringsJoin ((stringsSplit v0).map (quoteElement tbl)) ++ str "]"]
  else if v0 ≠ str "true" ∧ v0 ≠ str "false" then some [strconvQuote tbl v0]
  else value


/-- Model of `utf8.ValidRune`: a code point up to U+10FFFF that is not a surrogate. -/
def validRune (r : Nat) : Bool :=
  decide (r < 0xD800) || (decide (0xE000 ≤ r) && decide (r ≤ 0x10FFFF))

/-- A decimal number: a non-empty string of the digits `0` to `9`. -/
def isDigits (s : GoString) : Prop := s ≠ [] ∧ ∀ b ∈ s, 0x30 ≤ b.toNat ∧ b.toNat ≤ 0x39

instance (s : GoString) : Decidable (isDigits s) := by
  unfold isDigits
  infer_instance

/-- The number that a string of decimal digits denotes. -/
def decimalValue (s : GoString) : Nat :=
  s.foldl (fun a c => a * 10 + (c.toNat - 0x30)) 0

/-- Strings for which `strconv.ParseFloat(s, 64)` returns a nil error: decimal literals (a
    sign, a bare fraction or integer part, an exponent, underscores between digits),
    hexadecimal literals with their `p` exponent, the special values, and values up to the
    largest finite `float64` (the last literal is `1e308` written with 801 digits); a value
    that underflows is no error. -/
def parseFloatAccepted : List GoString :=
  [str "20", str "2020", str "0", str "-1.5", str "+1", str ".5", str "1.", str "1e10",
   str "1E-2", str "1_000", str "0x1p4", str "NaN", str "nan", str "Inf", str "+inf",
   str "-Infinity", str "1e308", str "1.7976931348623158e308", str "1e-400",
   str "1e-4294967296", str "0x1p1023", str "0x1.fffffffffffff7p1023",
   str "1" ++ List.replicate 800 0x30 ++ str "e-492"]

/-- Strings for which `strconv.ParseFloat(s, 64)` returns an error: a syntax error (no
    digits, bytes left over, an exponent without digits, a hexadecimal literal without
    exponent, misplaced underscores), or a range error (a value that rounds to an
    infinity; the last literal is `1e309` written with 801 digits). -/
def parseFloatRejected : List GoString :=
  [str "", str "foo2", str "1e", str "e1", str "1.2.3", str "--1", str " 1", str "1 ",
   str "-NaN", str "Infx", str "0x10", str "0b1", str "_1", str "1_", str "1__0",
   str "1e309", str "1e400", str "1e+4294967296", str "1.7976931348623159e308",
   str "0x1p1024", str "0x1.fffffffffffff8p1023",
   str "1" ++ List.replicate 800 0x30 ++ str "e-491"]

/-- Whether a member of a JSON object can be stored into `Error` without a type error: its
    key selects no field, or its value is `null`, or a string for a string field, or an
    integer literal in the 64-bit range for `StatusCode`. -/
def fitsError (member : GoString × JValue) : Bool :=
  match lookupField errorFields member.1 with
  | none => true
  | some .statusCode => !(storeInt 0 member.2).2
  | some _ => !(storeString [] member.2).2

/-- The string `v` if the JSON value `v` is a string, else `old`. -/
def stringOr (old : GoString) (v : JValue) : GoString :=
  match v with
  | .string s => s
  | _ => old

/-- The string that a JSON object holds for the field `f` of `Error`: the value of the last
    member whose key selects `f` and whose value is a string; empty when there is none. -/
def stringMember (f : ErrorField) (members : List (GoString × JValue)) : GoString :=
  members.foldl (fun acc m =>
    if lookupField errorFields m.1 = some f then stringOr acc m.2 else acc) []

/-- A Go string is well-formed UTF-8 when writing it as JSON and reading it back changes
    nothing, that is, when no byte of it has to be replaced by U+FFFD. -/
def validUTF8 (s : GoString) : Prop := toValidUTF8 s = s

instance (s : GoString) : Decidable (validUTF8 s) := by
  unfold validUTF8
  infer_instance

/-- The range of the Go type `int64`. -/
def isInt64 (x : Int) : Prop := -9223372036854775808 ≤ x ∧ x ≤ 9223372036854775807

instance (x : Int) : Decidable (isInt64 x) := by
  unfold isInt64
  infer_instance

/-- A `Document` as a Go program can hold it and `json.Marshal` can write it without
    changing a string: its map has no key twice, every `Length` is an `int64`, and its
    strings (`Id`, `Rev`, the attachment names and content types) are well-formed UTF-8. -/
def Document.wellFormed (d : Document) : Prop :=
  validUTF8 d.Id ∧ validUTF8 d.Rev ∧
    ∀ m, d.Attachments = some m →
      (m.map Prod.fst).Nodup ∧
      ∀ p ∈ m, validUTF8 p.1 ∧ validUTF8 p.2.ContentType ∧ isInt64 p.2.Length

/-- Assigns the entries of `l`, in order, into the map `m`. -/
def insertAll {V : Type} (l m : List (GoString × V)) : List (GoString × V) :=
  l.foldl (fun acc e => mapSet acc e.1 e.2) m

/-- The design document with the given id and all other fields at their zero values. -/
def designDocumentWithId (id : GoString) : DesignDocument :=
  { Id := id, Rev := [], Attachments := none, Language := [], Views := none }

/-- A stored document that already holds one attachment, `old.txt`. -/
def documentWithOldAttachment : Document :=
  { Id := str "doc1", Rev := str "1-a",
    Attachments := some [(str "old.txt",
      { Follows := false, ContentType := str "text/plain", Length := 3 })] }

/-- A multipart writer without parts whose operations all succeed. -/
def freshWriter : MultipartWriter :=
  { parts := [], createPartError := none, writeError := none }

/-! ## Lemmas on `url.Values` and the loop of `quote` -/

theorem Values.get_set_same (values : Values) (key value : GoString) :
    Values.get (Values.set values key value) key = some (some [value]) := by
  induction values with
  | nil => simp [Values.set, Values.get]
  | cons p rest ih =>
    obtain ⟨k, v⟩ := p
    by_cases h : k = key
    · simp [Values.set, Values.get, h]
    · simp [Values.set, Values.get, h, ih]

theorem Values.get_set_other (values : Values) (key value k : GoString) (h : k ≠ key) :
    Values.get (Values.set values key value) k = Values.get values k := by
  induction values with
  | nil => simp [Values.set, Values.get, Ne.symm h]
  | cons p rest ih =>
    obtain ⟨k1, v⟩ := p
    by_cases h1 : k1 = key
    · subst h1
      simp [Values.set, Values.get, Ne.symm h]
    · by_cases h2 : k1 = k
      · subst h2
        simp [Values.set, Values.get, h]
      · simp [Values.set, Values.get, h1, h2, ih]

theorem Values.get_of_mem (values : Values) (hnodup : (values.map Prod.fst).Nodup)
    (p : GoString × StringSlice) (hp : p ∈ values) : Values.get values p.1 = some p.2 := by
  induction values with
  | nil => simp at hp
  | cons q rest ih =>
    obtain ⟨k, v⟩ := q
    simp only [List.map_cons, List.nodup_cons] at hnodup
    rcases List.mem_cons.mp hp with h | h
    · subst h
      simp [Values.get]
    · have hne : k ≠ p.1 := by
        intro hk
        exact hnodup.1 (hk ▸ List.mem_map_of_mem Prod.fst h)
      simp [Values.get, hne, ih hnodup.2 h]

theorem index0_ne_none (value : StringSlice) (v0 : GoString) (h : index0 value = some v0) :
    value ≠ none := by
  intro hv
  subst hv
  simp [index0] at h

theorem quoteStep_spec (tbl : Nat → Bool) (values : Values) (key : GoString)
    (value : StringSlice) (v0 : GoString) (h0 : index0 value = some v0)
    (hget : Values.get values key = some value) :
    ∃ values1, quoteStep tbl values key value = some values1 ∧
      Values.get values1 key = some (quotedValue tbl key value v0) ∧
      ∀ k, k ≠ key → Values.get values1 k = Values.get values k := by
  have hv : value ≠ none := index0_ne_none value v0 h0
  by_cases hk : key = str "startkey" ∨ key = str "endkey"
  · have hc : key = str "startkey" ∨ (key = str "endkey" ∧ value ≠ none) := by
      rcases hk with h | h
      · exact Or.inl h
      · exact Or.inr ⟨h, hv⟩
    refine ⟨Values.set values key
      (str "[" ++ stringsJoin ((stringsSplit v0).map (quoteElement tbl)) ++ str "]"), ?_, ?_, ?_⟩
    · simp only [quoteStep, if_pos hc, h0]
    · simp only [quotedValue, if_pos hk]
      exact Values.get_set_same _ _ _
    · intro k hne
      exact Values.get_set_other _ _ _ _ hne
  · have hc : ¬ (key = str "startkey" ∨ (key = str "endkey" ∧ value ≠ none)) := by
      intro h
      rcases h with h | h
      · exact hk (Or.inl h)
      · exact hk (Or.inr h.1)
    by_cases hb : v0 ≠ str "true" ∧ v0 ≠ str "false"
    · refine ⟨Values.set values key (strconvQuote tbl v0), ?_, ?_, ?_⟩
      · simp only [quoteStep, if_neg hc, h0, if_pos hb]
      · simp only [quotedValue, if_neg hk, if_pos hb]
        exact Values.get_set_same _ _ _
      · intro k hne
        exact Values.get_set_other _ _ _ _ hne
    · refine ⟨values, ?_, ?_, ?_⟩
      · simp only [quoteStep, if_neg hc, h0, if_neg hb]
      · simp only [quotedValue, if_neg hk, if_neg hb]
        exact hget
      · intro k _
        rfl

theorem quoteLoop_spec (tbl : Nat → Bool) (todo : List (GoString × StringSlice)) :
    ∀ (values : Values), (todo.map Prod.fst).Nodup →
      (∀ p ∈ todo, index0 p.2 ≠ none) →
      (∀ p ∈ todo, Values.get values p.1 = some p.2) →
      ∃ out, quoteLoop tbl todo values = some out ∧
        (∀ p ∈ todo, ∀ v0, index0 p.2 = some v0 →
          Values.get out p.1 = some (quotedValue tbl p.1 p.2 v0)) ∧
        (∀ k, k ∉ todo.map Prod.fst → Values.get out k = Values.get values k) := by
  induction todo with
  | nil =>
    intro values _ _ _
    exact ⟨values, rfl, by simp, by simp⟩
  | cons q rest ih =>
    intro values hnodup hall hget
    obtain ⟨key, value⟩ := q
    simp only [List.map_cons, List.nodup_cons] at hnodup
    have hq := hall (key, value) (List.mem_cons_self _ _)
    obtain ⟨v0, h0⟩ := Option.ne_none_iff_exists'.mp hq
    obtain ⟨values1, hstep, hkey, hother⟩ :=
      quoteStep_spec tbl values key value v0 h0 (hget (key, value) (List.mem_cons_self _ _))
    have hget1 : ∀ p ∈ rest, Values.get values1 p.1 = some p.2 := by
      intro p hp
      have hne : p.1 ≠ key := by
        intro h
        exact hnodup.1 (h ▸ List.mem_map_of_mem Prod.fst hp)
      rw [hother p.1 hne]
      exact hget p (List.mem_cons_of_mem _ hp)
    obtain ⟨out, hloop, hin, hout⟩ :=
      ih values1 hnodup.2 (fun p hp => hall p (List.mem_cons_of_mem _ hp)) hget1
    refine ⟨out, ?_, ?_, ?_⟩
    · simp only [quoteLoop, hstep, hloop]
    · intro p hp v1 h1
      rcases List.mem_cons.mp hp with h | h
      · subst h
        have hv : v1 = v0 := by
          rw [h0] at h1
          exact (Option.some.inj h1).symm
        subst hv
        rw [hout key hnodup.1]
        exact hkey
      · exact hin p h v1 h1
    · intro k hk
      simp only [List.map_cons, List.mem_cons, not_or] at hk
      rw [hout k hk.2]
      exact hother k hk.1

/-- What `quote` returns: on a map in which every parameter has a first value it does not
    panic, and each parameter holds the value that its own iteration gave it. -/
theorem quote_spec (tbl : Nat → Bool) (values : Values)
    (hnodup : (values.map Prod.fst).Nodup) (hall : ∀ p ∈ values, index0 p.2 ≠ none) :
    ∃ out, quote tbl values = some out ∧
      ∀ p ∈ values, ∀ v0, index0 p.2 = some v0 →
        Values.get out p.1 = some (quotedValue tbl p.1 p.2 v0) := by
  obtain ⟨out, h1, h2, _⟩ := quoteLoop_spec tbl values values hnodup hall
    (fun p hp => Values.get_of_mem values hnodup p hp)
  exact ⟨out, h1, h2⟩

/-! ## Lemmas on bytes, UTF-8 and `strconv.Quote` -/

theorem ofNat_toNat (b : UInt8) : UInt8.ofNat b.toNat = b := by
  cases b with
  | mk v =>
    apply UInt8.ext
    simp [UInt8.ofNat, UInt8.toNat, Fin.ofNat, Nat.mod_eq_of_lt v.isLt]

theorem toNat_inj (a b : UInt8) (h : a.toNat = b.toNat) : a = b := by
  rw [← ofNat_toNat a, ← ofNat_toNat b, h]

theorem toNat_ofNat (n : Nat) (h : n < 256) : (UInt8.ofNat n).toNat = n := by
  simp [UInt8.ofNat, UInt8.toNat, Fin.ofNat, Nat.mod_eq_of_lt h]

/-- Decoding the UTF-8 encoding of a Unicode scalar value gives the value and the length of
    its encoding. -/
theorem decodeRune_utf8Encode (r : Nat) (hr : r < 0xD800 ∨ (0xE000 ≤ r ∧ r ≤ 0x10FFFF))
    (rest : GoString) :
    decodeRune (utf8Encode r ++ rest) = (r, (utf8Encode r).length) := by
  by_cases h1 : r < 0x80
  · have e : (UInt8.ofNat r).toNat = r := toNat_ofNat r (by omega)
    simp [utf8Encode, h1, decodeRune, e]
  · by_cases h2 : r < 0x800
    · have e0 : (UInt8.ofNat (0xC0 + r / 64)).toNat = 0xC0 + r / 64 := toNat_ofNat _ (by omega)
      have e1 : (UInt8.ofNat (0x80 + r % 64)).toNat = 0x80 + r % 64 := toNat_ofNat _ (by omega)
      have l : leadSize (0xC0 + r / 64) = 2 := by
        unfold leadSize; rw [if_pos (by omega)]
      have a : acceptRange (0xC0 + r / 64) = (0x80, 0xBF) := by
        unfold acceptRange
        rw [if_neg (by omega), if_neg (by omega), if_neg (by omega), if_neg (by omega)]
      have i : inRange 0x80 0xBF (UInt8.ofNat (0x80 + r % 64)) = true := by
        unfold inRange
        rw [e1]
        simp
        omega
      simp only [utf8Encode, if_neg h1, if_pos h2, decodeRune, List.cons_append, e0, e1, l, a, i]
      rw [if_neg (by omega)]
      simp
      omega
    · by_cases h3 : r < 0x10000
      · have e0 : (UInt8.ofNat (0xE0 + r / 4096)).toNat = 0xE0 + r / 4096 :=
          toNat_ofNat _ (by omega)
        have e1 : (UInt8.ofNat (0x80 + r / 64 % 64)).toNat = 0x80 + r / 64 % 64 :=
          toNat_ofNat _ (by omega)
        have e2 : (UInt8.ofNat (0x80 + r % 64)).toNat = 0x80 + r % 64 := toNat_ofNat _ (by omega)
        have l : leadSize (0xE0 + r / 4096) = 3 := by
          unfold leadSize; rw [if_neg (by omega), if_pos (by omega)]
        have i1 : inRange (acceptRange (0xE0 + r / 4096)).1 (acceptRange (0xE0 + r / 4096)).2
            (UInt8.ofNat (0x80 + r / 64 % 64)) = true := by
          unfold acceptRange inRange
          rw [e1]
          split_ifs <;> simp <;> omega
        have i2 : inRange 0x80 0xBF (UInt8.ofNat (0x80 + r % 64)) = true := by
          unfold inRange
          rw [e2]
          simp
          omega
        simp only [utf8Encode, if_neg h1, if_neg h2, if_pos h3, decodeRune, List.cons_append,
          e0, e1, e2, l, i1, i2]
        rw [if_neg (by omega)]
        simp
        omega
      · have e0 : (UInt8.ofNat (0xF0 + r / 262144)).toNat = 0xF0 + r / 262144 :=
          toNat_ofNat _ (by omega)
        have e1 : (UInt8.ofNat (0x80 + r / 4096 % 64)).toNat = 0x80 + r / 4096 % 64 :=
          toNat_ofNat _ (by omega)
        have e2 : (UInt8.ofNat (0x80 + r / 64 % 64)).toNat = 0x80 + r / 64 % 64 :=
          toNat_ofNat _ (by omega)
        have e3 : (UInt8.ofNat (0x80 + r % 64)).toNat = 0x80 + r % 64 := toNat_ofNat _ (by omega)
        have l : leadSize (0xF0 + r / 262144) = 4 := by
          unfold leadSize; rw [if_neg (by omega), if_neg (by omega), if_pos (by omega)]
        have i1 : inRange (acceptRange (0xF0 + r / 262144)).1 (acceptRange (0xF0 + r / 262144)).2
            (UInt8.ofNat (0x80 + r / 4096 % 64)) = true := by
          unfold acceptRange inRange
          rw [e1]
          split_ifs <;> simp <;> omega
        have i2 : inRange 0x80 0xBF (UInt8.ofNat (0x80 + r / 64 % 64)) = true := by
          unfold inRange
          rw [e2]
          simp
          omega
        have i3 : inRange 0x80 0xBF (UInt8.ofNat (0x80 + r % 64)) = true := by
          unfold inRange
          rw [e3]
          simp
          omega
        simp only [utf8Encode, if_neg h1, if_neg h2, if_neg h3, decodeRune, List.cons_append,
          e0, e1, e2, e3, l, i1, i2, i3]
        rw [if_neg (by omega)]
        simp
        omega

theorem utf8Encode_length_pos (r : Nat) : 0 < (utf8Encode r).length := by
  unfold utf8Encode
  split_ifs <;> simp

theorem utf8Encode_length_eq_one (r : Nat) (h : (utf8Encode r).length = 1) : r < 0x80 := by
  unfold utf8Encode at h
  split_ifs at h with h1 h2 h3
  · exact h1
  · simp at h
  · simp at h
  · simp at h

/-- One step of the loop of `strconv.Quote` on a well-encoded rune. -/
theorem quoteBody_rune (tbl : Nat → Bool) (fuel r : Nat)
    (hr : r < 0xD800 ∨ (0xE000 ≤ r ∧ r ≤ 0x10FFFF)) (rest : GoString) :
    quoteBody tbl (fuel + 1) (utf8Encode r ++ rest) =
      appendEscapedRune tbl r ++ quoteBody tbl fuel rest := by
  have hd := decodeRune_utf8Encode r hr rest
  have hpos := utf8Encode_length_pos r
  cases he : utf8Encode r with
  | nil => rw [he] at hpos; simp at hpos
  | cons b tail =>
    rw [he] at hd
    have hne : ¬ ((decodeRune (b :: tail ++ rest)).2 = 1 ∧
        (decodeRune (b :: tail ++ rest)).1 = runeError) := by
      rw [hd]
      rintro ⟨h1, h2⟩
      have := utf8Encode_length_eq_one r (by rw [he]; exact h1)
      simp only [runeError] at h2
      omega
    have hdrop : (b :: tail ++ rest).drop (decodeRune (b :: tail ++ rest)).2 = rest := by
      rw [hd]
      simp
    simp only [List.cons_append] at hne hdrop hd ⊢
    rw [hd] at hne hdrop
    simp only [quoteBody, hd, if_neg hne, hdrop]

/-- On a valid UTF-8 string `strconv.Quote` escapes rune by rune. -/
theorem quoteBody_runes (tbl : Nat → Bool) (runes : List Nat) :
    ∀ fuel, runes.length ≤ fuel →
      (∀ r ∈ runes, r < 0xD800 ∨ (0xE000 ≤ r ∧ r ≤ 0x10FFFF)) →
      quoteBody tbl fuel (runes.flatMap utf8Encode) =
        runes.flatMap (appendEscapedRune tbl) := by
  induction runes with
  | nil =>
    intro fuel _ _
    cases fuel <;> simp [quoteBody]
  | cons r rest ih =>
    intro fuel hfuel hv
    cases fuel with
    | zero => simp at hfuel
    | succ fuel =>
      simp only [List.flatMap_cons]
      rw [quoteBody_rune tbl fuel r (hv r (List.mem_cons_self _ _))]
      rw [ih fuel (by simpa using hfuel) (fun x hx => hv x (List.mem_cons_of_mem _ hx))]

theorem flatMap_utf8Encode_length (runes : List Nat) :
    runes.length ≤ (runes.flatMap utf8Encode).length := by
  induction runes with
  | nil => simp
  | cons r rest ih =>
    have := utf8Encode_length_pos r
    simp only [List.flatMap_cons, List.length_append, List.length_cons]
    omega

theorem strconvQuote_runes (tbl : Nat → Bool) (runes : List Nat)
    (hv : ∀ r ∈ runes, r < 0xD800 ∨ (0xE000 ≤ r ∧ r ≤ 0x10FFFF)) :
    strconvQuote tbl (runes.flatMap utf8Encode) =
      [0x22] ++ runes.flatMap (appendEscapedRune tbl) ++ [0x22] := by
  unfold strconvQuote
  rw [quoteBody_runes tbl runes _ (flatMap_utf8Encode_length runes) hv]

theorem appendEscapedRune_plain (tbl : Nat → Bool) (r : Nat)
    (h : r ≠ 0x22 ∧ r ≠ 0x5C ∧ isPrint tbl r = true) : appendEscapedRune tbl r = utf8Encode r := by
  unfold appendEscapedRune
  rw [if_neg (by omega), if_pos h.2.2]

theorem strconvQuote_plain (tbl : Nat → Bool) (runes : List Nat)
    (hv : ∀ r ∈ runes, r < 0xD800 ∨ (0xE000 ≤ r ∧ r ≤ 0x10FFFF))
    (hp : ∀ r ∈ runes, r ≠ 0x22 ∧ r ≠ 0x5C ∧ isPrint tbl r = true) :
    strconvQuote tbl (runes.flatMap utf8Encode) =
      [0x22] ++ runes.flatMap utf8Encode ++ [0x22] := by
  rw [strconvQuote_runes tbl runes hv]
  congr 2
  induction runes with
  | nil => rfl
  | cons r rest ih =>
    simp only [List.flatMap_cons]
    rw [appendEscapedRune_plain tbl r (hp r (List.mem_cons_self _ _)),
      ih (fun x hx => hv x (List.mem_cons_of_mem _ hx))
        (fun x hx => hp x (List.mem_cons_of_mem _ hx))]

/-! ## Lemmas on `strings.Split` and `strings.Join` -/

theorem stringsSplit_ne_nil (v : GoString) : stringsSplit v ≠ [] := by
  cases v with
  | nil => simp [stringsSplit]
  | cons c rest =>
    unfold stringsSplit
    split_ifs
    · simp
    · split <;> simp

theorem stringsJoin_cons_cons (c : UInt8) (a : GoString) (l : List GoString) :
    stringsJoin ((c :: a) :: l) = c :: stringsJoin (a :: l) := by
  cases l <;> simp [stringsJoin]

theorem stringsJoin_split (v : GoString) : stringsJoin (stringsSplit v) = v := by
  induction v with
  | nil => simp [stringsSplit, stringsJoin]
  | cons c rest ih =>
    unfold stringsSplit
    by_cases hc : c.toNat = 0x2C
    · rw [if_pos hc]
      have hcc : c = 0x2C := toNat_inj _ _ hc
      cases hs : stringsSplit rest with
      | nil => exact absurd hs (stringsSplit_ne_nil rest)
      | cons piece pieces =>
        rw [hs] at ih
        simp [stringsJoin, ih, hcc]
    · rw [if_neg hc]
      cases hs : stringsSplit rest with
      | nil => exact absurd hs (stringsSplit_ne_nil rest)
      | cons piece pieces =>
        rw [hs] at ih
        simp only []
        rw [stringsJoin_cons_cons, ih]

theorem stringsSplit_no_comma (v : GoString) : ∀ c ∈ stringsSplit v, (0x2C : UInt8) ∉ c := by
  induction v with
  | nil => simp [stringsSplit]
  | cons b rest ih =>
    unfold stringsSplit
    by_cases hb : b.toNat = 0x2C
    · rw [if_pos hb]
      intro c hc
      rcases List.mem_cons.mp hc with h | h
      · subst h; simp
      · exact ih c h
    · rw [if_neg hb]
      cases hs : stringsSplit rest with
      | nil => exact absurd hs (stringsSplit_ne_nil rest)
      | cons piece pieces =>
        rw [hs] at ih
        simp only []
        intro c hc
        rcases List.mem_cons.mp hc with h | h
        · subst h
          intro hmem
          rcases List.mem_cons.mp hmem with h1 | h1
          · apply hb; rw [← h1]; rfl
          · exact ih piece (List.mem_cons_self _ _) h1
        · exact ih c (List.mem_cons_of_mem _ h)

theorem stringsSplit_single (v : GoString) (h : (0x2C : UInt8) ∉ v) : stringsSplit v = [v] := by
  induction v with
  | nil => simp [stringsSplit]
  | cons b rest ih =>
    have hb : b.toNat ≠ 0x2C := by
      intro hb
      apply h
      rw [← toNat_inj b 0x2C hb]
      exact List.mem_cons_self _ _
    have hrest : (0x2C : UInt8) ∉ rest := fun hm => h (List.mem_cons_of_mem _ hm)
    unfold stringsSplit
    rw [if_neg hb, ih hrest]

/-! ## `strconv.Quote` never shortens -/

theorem decodeRune_width (b : UInt8) (rest : GoString) :
    (decodeRune (b :: rest)).2 = 1 ∨
    ((decodeRune (b :: rest)).2 = 2 ∧ 0x80 ≤ (decodeRune (b :: rest)).1 ∧ 1 ≤ rest.length) ∨
    ((decodeRune (b :: rest)).2 = 3 ∧ 0x800 ≤ (decodeRune (b :: rest)).1 ∧ 2 ≤ rest.length) ∨
    ((decodeRune (b :: rest)).2 = 4 ∧ 0x10000 ≤ (decodeRune (b :: rest)).1 ∧
      3 ≤ rest.length) := by
  unfold decodeRune
  simp only []
  by_cases h0 : b.toNat < 0x80
  · rw [if_pos h0]; exact Or.inl rfl
  rw [if_neg h0]
  by_cases hl : leadSize b.toNat = 0
  · rw [if_pos hl]; exact Or.inl rfl
  rw [if_neg hl]
  cases rest with
  | nil => exact Or.inl rfl
  | cons b1 rest1 =>
    simp only []
    by_cases hi1 : inRange (acceptRange b.toNat).1 (acceptRange b.toNat).2 b1 = true
    swap
    · rw [if_pos (by simpa using hi1)]; exact Or.inl rfl
    rw [if_neg (by simp [hi1])]
    have hlead : (leadSize b.toNat = 2 ∧ 0xC2 ≤ b.toNat ∧ b.toNat ≤ 0xDF) ∨
        (leadSize b.toNat = 3 ∧ 0xE0 ≤ b.toNat ∧ b.toNat ≤ 0xEF) ∨
        (leadSize b.toNat = 4 ∧ 0xF0 ≤ b.toNat ∧ b.toNat ≤ 0xF4) := by
      unfold leadSize at hl ⊢
      split_ifs at hl ⊢ <;> simp_all
    have hacc : 0x80 ≤ b1.toNat ∧ b1.toNat ≤ 0xBF ∧ (b.toNat = 0xE0 → 0xA0 ≤ b1.toNat) ∧
        (b.toNat = 0xF0 → 0x90 ≤ b1.toNat) := by
      unfold acceptRange inRange at hi1
      split_ifs at hi1 <;> simp at hi1 <;> omega
    by_cases h2 : leadSize b.toNat = 2
    · rw [if_pos h2]
      right; left
      refine ⟨rfl, ?_, by simp⟩
      simp only []
      rcases hlead with h | h | h <;> omega
    rw [if_neg h2]
    cases rest1 with
    | nil => exact Or.inl rfl
    | cons b2 rest2 =>
      simp only []
      by_cases hi2 : inRange 0x80 0xBF b2 = true
      swap
      · rw [if_pos (by simpa using hi2)]; exact Or.inl rfl
      rw [if_neg (by simp [hi2])]
      by_cases h3 : leadSize b.toNat = 3
      · rw [if_pos h3]
        right; right; left
        refine ⟨rfl, ?_, by simp⟩
        simp only []
        rcases hlead with h | h | h <;> omega
      rw [if_neg h3]
      cases rest2 with
      | nil => exact Or.inl rfl
      | cons b3 rest3 =>
        simp only []
        by_cases hi3 : inRange 0x80 0xBF b3 = true
        swap
        · rw [if_pos (by simpa using hi3)]; exact Or.inl rfl
        rw [if_neg (by simp [hi3])]
        right; right; right
        refine ⟨rfl, ?_, by simp⟩
        simp only []
        rcases hlead with h | h | h <;> omega

theorem hexDigits_length (k r : Nat) : (hexDigits k r).length = k := by
  induction k with
  | zero => rfl
  | succ k ih => simp [hexDigits, ih]

theorem utf8Encode_length_ge (r : Nat) :
    (0x80 ≤ r → 2 ≤ (utf8Encode r).length) ∧ (0x800 ≤ r → 3 ≤ (utf8Encode r).length) ∧
      (0x10000 ≤ r → 4 ≤ (utf8Encode r).length) := by
  unfold utf8Encode
  split_ifs <;> simp <;> omega

theorem appendEscapedRune_length (tbl : Nat → Bool) (r : Nat) :
    1 ≤ (appendEscapedRune tbl r).length ∧
    (0x80 ≤ r → 2 ≤ (appendEscapedRune tbl r).length) ∧
    (0x800 ≤ r → 3 ≤ (appendEscapedRune tbl r).length) ∧
    (0x10000 ≤ r → 4 ≤ (appendEscapedRune tbl r).length) := by
  have hx : (str "\\x").length = 2 := by decide
  have hu : (str "\\u").length = 2 := by decide
  have hU : (str "\\U").length = 2 := by decide
  have hp := utf8Encode_length_pos r
  have hg := utf8Encode_length_ge r
  have small : ∀ l : GoString, 1 ≤ l.length → r < 0x80 →
      (1 ≤ l.length ∧ (0x80 ≤ r → 2 ≤ l.length) ∧ (0x800 ≤ r → 3 ≤ l.length) ∧
        (0x10000 ≤ r → 4 ≤ l.length)) := by
    intro l h1 h2
    refine ⟨h1, ?_, ?_, ?_⟩ <;> intro h <;> omega
  have big : ∀ l : GoString, 4 ≤ l.length →
      (1 ≤ l.length ∧ (0x80 ≤ r → 2 ≤ l.length) ∧ (0x800 ≤ r → 3 ≤ l.length) ∧
        (0x10000 ≤ r → 4 ≤ l.length)) := by
    intro l h
    refine ⟨by omega, ?_, ?_, ?_⟩ <;> intro _ <;> omega
  unfold appendEscapedRune
  by_cases h1 : r = 0x22 ∨ r = 0x5C
  · rw [if_pos h1]
    exact small _ (by simp only [List.length_cons]; omega) (by omega)
  rw [if_neg h1]
  by_cases h2 : isPrint tbl r = true
  · rw [if_pos h2]
    exact ⟨hp, hg.1, hg.2.1, hg.2.2⟩
  rw [if_neg h2]
  by_cases h3 : r = 0x07
  · rw [if_pos h3]; exact small _ (by decide) (by omega)
  rw [if_neg h3]
  by_cases h4 : r = 0x08
  · rw [if_pos h4]; exact small _ (by decide) (by omega)
  rw [if_neg h4]
  by_cases h5 : r = 0x0C
  · rw [if_pos h5]; exact small _ (by decide) (by omega)
  rw [if_neg h5]
  by_cases h6 : r = 0x0A
  · rw [if_pos h6]; exact small _ (by decide) (by omega)
  rw [if_neg h6]
  by_cases h7 : r = 0x0D
  · rw [if_pos h7]; exact small _ (by decide) (by omega)
  rw [if_neg h7]
  by_cases h8 : r = 0x09
  · rw [if_pos h8]; exact small _ (by decide) (by omega)
  rw [if_neg h8]
  by_cases h9 : r = 0x0B
  · rw [if_pos h9]; exact small _ (by decide) (by omega)
  rw [if_neg h9]
  by_cases h10 : r < 0x20 ∨ r = 0x7F
  · rw [if_pos h10]
    exact big _ (by simp only [List.length_append, hexDigits_length, hx]; omega)
  rw [if_neg h10]
  by_cases h11 : r < 0x10000
  · rw [if_pos h11]
    exact big _ (by simp only [List.length_append, hexDigits_length, hu]; omega)
  rw [if_neg h11]
  exact big _ (by simp only [List.length_append, hexDigits_length, hU]; omega)

theorem quoteBody_length (tbl : Nat → Bool) :
    ∀ (fuel : Nat) (s : GoString), s.length ≤ fuel → s.length ≤ (quoteBody tbl fuel s).length := by
  intro fuel
  induction fuel with
  | zero =>
    intro s hs
    have : s = [] := List.length_eq_zero.mp (by omega)
    subst this
    simp
  | succ fuel ih =>
    intro s hs
    cases s with
    | nil => simp
    | cons b rest =>
      have hx : (str "\\x").length = 2 := by decide
      simp only [List.length_cons] at hs
      unfold quoteBody
      simp only []
      by_cases hc : (decodeRune (b :: rest)).2 = 1 ∧ (decodeRune (b :: rest)).1 = runeError
      · rw [if_pos hc]
        have := ih rest (by omega)
        simp only [List.length_append, List.length_cons, List.length_nil, hx]
        omega
      · rw [if_neg hc]
        have hdrop : ((b :: rest).drop (decodeRune (b :: rest)).2).length =
            (b :: rest).length - (decodeRune (b :: rest)).2 := List.length_drop _ _
        have hw := decodeRune_width b rest
        have hrec := ih ((b :: rest).drop (decodeRune (b :: rest)).2)
          (by rw [hdrop]; simp only [List.length_cons]; rcases hw with h | h | h | h <;> omega)
        have hl := appendEscapedRune_length tbl (decodeRune (b :: rest)).1
        rw [hdrop] at hrec
        simp only [List.length_append, List.length_cons] at hrec ⊢
        rcases hw with h | h | h | h
        · omega
        · have := hl.2.1 h.2.1; omega
        · have := hl.2.2.1 h.2.1; omega
        · have := hl.2.2.2 h.2.1; omega

theorem strconvQuote_length (tbl : Nat → Bool) (s : GoString) :
    s.length + 2 ≤ (strconvQuote tbl s).length := by
  have := quoteBody_length tbl s.length s (le_refl _)
  unfold strconvQuote
  simp only [List.length_append, List.length_cons, List.length_nil]
  omega

theorem quoteElement_length (tbl : Nat → Bool) (s : GoString) :
    s.length ≤ (quoteElement tbl s).length := by
  unfold quoteElement
  split_ifs
  · exact le_refl _
  · have := strconvQuote_length tbl s
    omega

theorem stringsJoin_map_length (f : GoString → GoString) (hf : ∀ s, s.length ≤ (f s).length) :
    ∀ l : List GoString, (stringsJoin l).length ≤ (stringsJoin (l.map f)).length := by
  intro l
  induction l with
  | nil => simp [stringsJoin]
  | cons a rest ih =>
    cases rest with
    | nil => simpa [stringsJoin] using hf a
    | cons b rest2 =>
      have := hf a
      simp only [List.map_cons, stringsJoin, List.length_append, List.length_cons,
        List.length_nil] at ih ⊢
      omega

/-! ## `strconv.ParseFloat` accepts decimal numbers -/

theorem lower_digit (c : UInt8) (h : 0x30 ≤ c.toNat ∧ c.toNat ≤ 0x39) : lower c = c.toNat := by
  unfold lower
  generalize c.toNat = n at h
  obtain ⟨h1, h2⟩ := h
  interval_cases n <;> rfl

theorem special_digits (s : GoString) (h : isDigits s) : special s = none := by
  obtain ⟨hne, hd⟩ := h
  cases s with
  | nil => exact absurd rfl hne
  | cons c rest =>
    have hc := hd c (List.mem_cons_self _ _)
    unfold special
    simp only []
    rw [if_neg (by omega), if_neg (by omega), if_neg (by omega)]

theorem scanDigits_digits (s : GoString) :
    ∀ st : FloatScan, (∀ b ∈ s, 0x30 ≤ b.toNat ∧ b.toNat ≤ 0x39) →
      st.sawdot = false → st.underscores = false → st.digits < 10 ^ st.nd →
      (0 < st.nd → 10 ^ (st.nd - 1) ≤ st.digits) →
      ∃ st1, scanDigits 10 19 s st = (st1, []) ∧ st1.sawdot = false ∧
        st1.underscores = false ∧ st1.digits < 10 ^ st1.nd ∧
        (0 < st1.nd → 10 ^ (st1.nd - 1) ≤ st1.digits) ∧ st1.nd ≤ st.nd + s.length ∧
        st1.digits = s.foldl (fun a c => a * 10 + (c.toNat - 0x30)) st.digits ∧
        ((st.sawdigits = true ∨ s ≠ []) → st1.sawdigits = true) := by
  induction s with
  | nil =>
    intro st _ h1 h2 h3 h4
    exact ⟨st, rfl, h1, h2, h3, h4, by simp, rfl, by simp⟩
  | cons c rest ih =>
    intro st hd h1 h2 h3 h4
    have hc := hd c (List.mem_cons_self _ _)
    have hrest : ∀ b ∈ rest, 0x30 ≤ b.toNat ∧ b.toNat ≤ 0x39 :=
      fun b hb => hd b (List.mem_cons_of_mem _ hb)
    have key : ∀ X : FloatScan, X.sawdot = false → X.underscores = false →
        X.digits < 10 ^ X.nd → (0 < X.nd → 10 ^ (X.nd - 1) ≤ X.digits) →
        X.nd ≤ st.nd + 1 → X.digits = st.digits * 10 + (c.toNat - 0x30) →
        X.sawdigits = true →
        ∃ st1, scanDigits 10 19 rest X = (st1, []) ∧ st1.sawdot = false ∧
          st1.underscores = false ∧ st1.digits < 10 ^ st1.nd ∧
          (0 < st1.nd → 10 ^ (st1.nd - 1) ≤ st1.digits) ∧
          st1.nd ≤ st.nd + (c :: rest).length ∧
          st1.digits = (c :: rest).foldl (fun a c => a * 10 + (c.toNat - 0x30)) st.digits ∧
          ((st.sawdigits = true ∨ c :: rest ≠ []) → st1.sawdigits = true) := by
      intro X x1 x2 x3 x4 x5 x6 x7
      obtain ⟨st1, e, a1, a2, a3, a4, a5, a6, a7⟩ := ih X hrest x1 x2 x3 x4
      refine ⟨st1, e, a1, a2, a3, a4, ?_, ?_, fun _ => a7 (Or.inl x7)⟩
      · simp only [List.length_cons]
        omega
      · rw [a6, x6]
        rfl
    unfold scanDigits
    rw [if_neg (by omega), if_neg (by omega), if_pos hc]
    by_cases hz : c.toNat = 0x30 ∧ st.nd = 0
    · rw [if_pos hz]
      have hd0 : st.digits = 0 := by
        have := h3
        rw [hz.2] at this
        simpa using this
      exact key _ h1 h2 h3 h4 (by show st.nd ≤ st.nd + 1; omega)
        (by show st.digits = st.digits * 10 + (c.toNat - 0x30); omega) rfl
    · rw [if_neg hz]
      simp only []
      have hpow : st.digits * 10 + (c.toNat - 0x30) < 10 ^ (st.nd + 1) := by
        rw [pow_succ]; omega
      have hlow : 0 < st.nd + 1 → 10 ^ (st.nd + 1 - 1) ≤ st.digits * 10 + (c.toNat - 0x30) := by
        intro _
        rw [Nat.add_sub_cancel]
        by_cases hn : st.nd = 0
        · rw [hn, pow_zero]
          omega
        · have h5 := h4 (Nat.pos_of_ne_zero hn)
          have e : st.nd = (st.nd - 1) + 1 := by omega
          rw [e, pow_succ]
          omega
      split_ifs
      all_goals exact key _ h1 h2 hpow hlow (le_refl _) rfl rfl

theorem readFloat_digits (s : GoString) (h : isDigits s) :
    readFloat s = readFloatTail s false (scanDigits 10 19 s FloatScan.init).1
      (scanDigits 10 19 s FloatScan.init).2 := by
  obtain ⟨hne, hd⟩ := h
  cases s with
  | nil => exact absurd rfl hne
  | cons c rest =>
    have hc := hd c (List.mem_cons_self _ _)
    unfold readFloat
    simp only []
    rw [if_neg (by omega)]
    cases rest with
    | nil => rfl
    | cons c1 rest1 =>
      cases rest1 with
      | nil => rfl
      | cons c2 rest2 =>
        have hc1 := hd c1 (List.mem_cons_of_mem _ (List.mem_cons_self _ _))
        have hl := lower_digit c1 hc1
        simp only []
        rw [if_neg (by rw [hl]; omega)]

set_option exponentiation.threshold 400 in
theorem pow_308_lt_overflow : 10 ^ 308 < float64Overflow := by
  unfold float64Overflow
  norm_num

set_option exponentiation.threshold 2000 in
theorem float64Overflow_eq : float64Overflow = (2 ^ 54 - 1) * 2 ^ 970 := by
  unfold float64Overflow
  norm_num

set_option exponentiation.threshold 400 in
theorem overflow_lt_pow_309 : float64Overflow < 10 ^ 309 := by
  unfold float64Overflow
  norm_num

set_option exponentiation.threshold 400 in
/-- `strconv.ParseFloat` accepts a decimal number exactly when its value is below the bound
    from which a `float64` rounds to an infinity. -/
theorem parseFloatOk_digits_iff (s : GoString) (h : isDigits s) :
    parseFloatOk s = true ↔ decimalValue s < float64Overflow := by
  obtain ⟨st1, e, a1, a2, a3, a4, a5, a6, a7⟩ := scanDigits_digits s FloatScan.init h.2 rfl rfl
    (by simp [FloatScan.init]) (by simp [FloatScan.init])
  have hsaw : st1.sawdigits = true := a7 (Or.inr h.1)
  have hval : st1.digits = decimalValue s := a6
  unfold parseFloatOk
  rw [special_digits s h, readFloat_digits s h, e]
  simp only [readFloatTail, hsaw, a1, a2, Bool.not_true, Bool.false_eq_true, if_false,
    false_and]
  simp only [decimalOverflows]
  rw [← hval]
  by_cases h0 : st1.digits = 0
  · have : (0 : Nat) < float64Overflow := by unfold float64Overflow; norm_num
    simp [h0, this]
  · have h2 : ¬ ((st1.nd : Int) < -330) := by omega
    by_cases h1 : (st1.nd : Int) > 310
    · have hnd : 0 < st1.nd := by omega
      have hge := a4 hnd
      have hbig : 10 ^ 309 ≤ 10 ^ (st1.nd - 1) :=
        Nat.pow_le_pow_right (by norm_num) (by omega)
      have : ¬ st1.digits < float64Overflow := by
        have := overflow_lt_pow_309
        omega
      simp [h0, h1, this]
    · simp [h0, h1, h2]

set_option exponentiation.threshold 400 in
/-- `strconv.ParseFloat` accepts every decimal number of at most 308 digits. -/
theorem parseFloatOk_digits (s : GoString) (h : isDigits s) (hlen : s.length ≤ 308) :
    parseFloatOk s = true := by
  obtain ⟨st1, e, _, _, a3, _, a5, a6, _⟩ := scanDigits_digits s FloatScan.init h.2 rfl rfl
    (by simp [FloatScan.init]) (by simp [FloatScan.init])
  rw [parseFloatOk_digits_iff s h]
  have hval : st1.digits = decimalValue s := a6
  have hnd : st1.nd ≤ 308 := by
    simp only [FloatScan.init, Nat.zero_add] at a5
    omega
  rw [← hval]
  exact lt_of_lt_of_le a3 (le_trans (Nat.pow_le_pow_right (by norm_num) hnd)
    (le_of_lt pow_308_lt_overflow))

theorem ascii_flatMap (v : GoString) (h : ∀ b ∈ v, b.toNat < 0x80) :
    (v.map UInt8.toNat).flatMap utf8Encode = v := by
  induction v with
  | nil => rfl
  | cons b rest ih =>
    have hb := h b (List.mem_cons_self _ _)
    simp only [List.map_cons, List.flatMap_cons]
    rw [ih (fun x hx => h x (List.mem_cons_of_mem _ hx))]
    simp only [utf8Encode, if_pos hb, ofNat_toNat]
    rfl

/-- `strconv.Quote` of a decimal number is the number between two double quotes. -/
theorem strconvQuote_digits (tbl : Nat → Bool) (v : GoString) (h : isDigits v) :
    strconvQuote tbl v = [0x22] ++ v ++ [0x22] := by
  have hascii : ∀ b ∈ v, b.toNat < 0x80 := fun b hb => by have := h.2 b hb; omega
  have e := ascii_flatMap v hascii
  have := strconvQuote_plain tbl (v.map UInt8.toNat)
    (by
      intro r hr
      obtain ⟨b, hb, rfl⟩ := List.mem_map.mp hr
      have := h.2 b hb
      omega)
    (by
      intro r hr
      obtain ⟨b, hb, rfl⟩ := List.mem_map.mp hr
      have := h.2 b hb
      refine ⟨by omega, by omega, ?_⟩
      unfold isPrint
      rw [if_pos (by omega), if_pos (by omega)])
  rw [e] at this
  exact this

/-! ## Lemmas on `json.Unmarshal` into `Error` -/

theorem storeString_fits (old : GoString) (v : JValue) (h : (storeString [] v).2 = false) :
    (storeString old v).2 = false ∧
      (storeString old v).1 = stringOr old v := by
  cases v <;> simp_all [storeString, stringOr]

theorem storeInt_fits (old : Int) (v : JValue) (h : (storeInt 0 v).2 = false) :
    (storeInt old v).2 = false := by
  cases v <;> simp_all [storeInt]
  split_ifs at h ⊢ <;> simp_all

theorem storeErrorMember_fits (acc : Error × Bool) (m : GoString × JValue)
    (hacc : acc.2 = false) (hm : fitsError m = true) :
    (storeErrorMember acc m).2 = false ∧
    (storeErrorMember acc m).1.Type_ =
      (if lookupField errorFields m.1 = some .type then stringOr acc.1.Type_ m.2
      else acc.1.Type_) ∧
    (storeErrorMember acc m).1.Reason =
      (if lookupField errorFields m.1 = some .reason then stringOr acc.1.Reason m.2
      else acc.1.Reason) := by
  unfold fitsError at hm
  unfold storeErrorMember
  cases hl : lookupField errorFields m.1 with
  | none => simp [hacc]
  | some f =>
    rw [hl] at hm
    cases f
    · have h := storeString_fits acc.1.Method m.2 (by simpa using hm)
      simp [hacc, h.1]
    · have h := storeString_fits acc.1.Url m.2 (by simpa using hm)
      simp [hacc, h.1]
    · have h := storeInt_fits acc.1.StatusCode m.2 (by simpa using hm)
      simp [hacc, h]
    · have h := storeString_fits acc.1.Type_ m.2 (by simpa using hm)
      simp [hacc, h.1, h.2]
    · have h := storeString_fits acc.1.Reason m.2 (by simpa using hm)
      simp [hacc, h.1, h.2]

theorem foldl_storeErrorMember_fits (members : List (GoString × JValue)) :
    ∀ acc : Error × Bool, acc.2 = false → (∀ m ∈ members, fitsError m = true) →
      (members.foldl storeErrorMember acc).2 = false ∧
      (members.foldl storeErrorMember acc).1.Type_ =
        members.foldl (fun a m =>
          if lookupField errorFields m.1 = some ErrorField.type then stringOr a m.2
          else a) acc.1.Type_ ∧
      (members.foldl storeErrorMember acc).1.Reason =
        members.foldl (fun a m =>
          if lookupField errorFields m.1 = some ErrorField.reason then stringOr a m.2
          else a) acc.1.Reason := by
  induction members with
  | nil =>
    intro acc hacc _
    exact ⟨hacc, rfl, rfl⟩
  | cons m rest ih =>
    intro acc hacc hfit
    have hstep := storeErrorMember_fits acc m hacc (hfit m (List.mem_cons_self _ _))
    have := ih (storeErrorMember acc m) hstep.1
      (fun x hx => hfit x (List.mem_cons_of_mem _ hx))
    simp only [List.foldl_cons]
    rw [this.1, this.2.1, this.2.2, hstep.2.1, hstep.2.2]
    exact ⟨rfl, rfl, rfl⟩

theorem stringMember_absent (f : ErrorField) (members : List (GoString × JValue))
    (h : ∀ m ∈ members, lookupField errorFields m.1 ≠ some f) : stringMember f members = [] := by
  unfold stringMember
  generalize ([] : GoString) = a
  induction members generalizing a with
  | nil => rfl
  | cons m rest ih =>
    simp only [List.foldl_cons, if_neg (h m (List.mem_cons_self _ _))]
    exact ih (fun x hx => h x (List.mem_cons_of_mem _ hx)) a

theorem storeString_flag (old : GoString) (v : JValue) :
    (storeString old v).2 = (storeString [] v).2 := by
  cases v <;> rfl

theorem storeInt_flag (old : Int) (v : JValue) : (storeInt old v).2 = (storeInt 0 v).2 := by
  cases v <;> simp only [storeInt]
  split_ifs <;> rfl

/-- A type error is recorded for a member exactly when it does not fit, and stays
    recorded. -/
theorem storeErrorMember_flag (acc : Error × Bool) (m : GoString × JValue) :
    (storeErrorMember acc m).2 = (acc.2 || !fitsError m) := by
  unfold fitsError storeErrorMember
  cases hl : lookupField errorFields m.1 with
  | none => simp
  | some f =>
    cases f
    · simp [storeString_flag acc.1.Method m.2]
    · simp [storeString_flag acc.1.Url m.2]
    · simp [storeInt_flag acc.1.StatusCode m.2]
    · simp [storeString_flag acc.1.Type_ m.2]
    · simp [storeString_flag acc.1.Reason m.2]

theorem foldl_storeErrorMember_flag (members : List (GoString × JValue)) :
    ∀ acc : Error × Bool,
      (members.foldl storeErrorMember acc).2 = (acc.2 || members.any (fun m => !fitsError m)) := by
  induction members with
  | nil => intro acc; simp
  | cons m rest ih =>
    intro acc
    simp only [List.foldl_cons, List.any_cons]
    rw [ih, storeErrorMember_flag, Bool.or_assoc]

/-- What fits a field of `Error`, spelled out. -/
theorem fitsError_iff (key : GoString) (v : JValue) :
    fitsError (key, v) = true ↔
      (lookupField errorFields key = none ∨ v = .null ∨
        (lookupField errorFields key ≠ some .statusCode ∧ ∃ s, v = .string s) ∨
        (lookupField errorFields key = some .statusCode ∧
          ∃ neg n, v = .number neg n [] ∧ isInt64 (if neg = true then -(n : Int) else (n : Int)))) := by
  unfold fitsError
  cases hl : lookupField errorFields key with
  | none => simp
  | some f =>
    cases f
    case statusCode =>
      cases v
      case number neg n rest =>
        simp only [storeInt, isInt64]
        by_cases hc : rest = [] ∧
            (-9223372036854775808 ≤ if neg = true then -(n : Int) else (n : Int)) ∧
            (if neg = true then -(n : Int) else (n : Int)) ≤ 9223372036854775807
        · rw [if_pos hc]
          simp only [Bool.not_false, true_iff]
          exact Or.inr (Or.inr (Or.inr ⟨trivial, neg, n, by rw [hc.1], hc.2⟩))
        · rw [if_neg hc]
          simp only [Bool.not_true, Bool.false_eq_true, false_iff]
          rintro (h | h | h | ⟨_, neg1, n1, hv, hr⟩)
          · cases h
          · cases h
          · exact absurd rfl h.1
          · cases hv
            exact hc ⟨rfl, hr⟩
      all_goals simp [storeInt]
    all_goals (cases v <;> simp [storeString])

/-! ## Lemmas on maps and on the JSON encoding of `Document` -/

theorem mapGet_mapSet_same {V : Type} (m : List (GoString × V)) (key : GoString) (value : V) :
    mapGet (mapSet m key value) key = some value := by
  induction m with
  | nil => simp [mapSet, mapGet]
  | cons p rest ih =>
    obtain ⟨k, v⟩ := p
    by_cases h : k = key
    · simp [mapSet, mapGet, h]
    · simp [mapSet, mapGet, h, ih]

theorem mapGet_mapSet_other {V : Type} (m : List (GoString × V)) (key k : GoString) (value : V)
    (h : k ≠ key) : mapGet (mapSet m key value) k = mapGet m k := by
  induction m with
  | nil => simp [mapSet, mapGet, Ne.symm h]
  | cons p rest ih =>
    obtain ⟨k1, v⟩ := p
    by_cases h1 : k1 = key
    · subst h1
      simp [mapSet, mapGet, Ne.symm h]
    · by_cases h2 : k1 = k
      · subst h2
        simp [mapSet, mapGet, h]
      · simp [mapSet, mapGet, h1, h2, ih]

theorem mapGet_eq_none {V : Type} (m : List (GoString × V)) (k : GoString)
    (h : k ∉ m.map Prod.fst) : mapGet m k = none := by
  induction m with
  | nil => rfl
  | cons p rest ih =>
    obtain ⟨k1, v⟩ := p
    simp only [List.map_cons, List.mem_cons, not_or] at h
    simp [mapGet, Ne.symm h.1, ih h.2]

theorem mapGet_eq_some_iff {V : Type} (m : List (GoString × V))
    (hnodup : (m.map Prod.fst).Nodup) (k : GoString) (v : V) :
    mapGet m k = some v ↔ (k, v) ∈ m := by
  induction m with
  | nil => simp [mapGet]
  | cons p rest ih =>
    obtain ⟨k1, v1⟩ := p
    simp only [List.map_cons, List.nodup_cons] at hnodup
    by_cases h : k1 = k
    · subst h
      simp only [mapGet, if_true, Option.some.injEq, List.mem_cons, Prod.mk.injEq, true_and]
      constructor
      · intro h1
        exact Or.inl h1.symm
      · rintro (h1 | h1)
        · exact h1.symm
        · exact absurd (List.mem_map_of_mem Prod.fst h1) hnodup.1
    · simp only [mapGet, if_neg h, ih hnodup.2, List.mem_cons, Prod.mk.injEq]
      constructor
      · intro h1
        exact Or.inr h1
      · rintro (h1 | h1)
        · exact absurd h1.1.symm h
        · exact h1

theorem mapGet_perm {V : Type} (l1 l2 : List (GoString × V)) (hp : l1.Perm l2)
    (hnodup : (l1.map Prod.fst).Nodup) (k : GoString) : mapGet l1 k = mapGet l2 k := by
  have hnodup2 : (l2.map Prod.fst).Nodup := (hp.map Prod.fst).nodup_iff.mp hnodup
  cases h : mapGet l2 k with
  | some v =>
    rw [mapGet_eq_some_iff l2 hnodup2] at h
    rw [mapGet_eq_some_iff l1 hnodup]
    exact hp.mem_iff.mpr h
  | none =>
    cases h1 : mapGet l1 k with
    | none => rfl
    | some v =>
      rw [mapGet_eq_some_iff l1 hnodup] at h1
      have := (mapGet_eq_some_iff l2 hnodup2 k v).mpr (hp.mem_iff.mp h1)
      rw [h] at this
      cases this

theorem mapGet_insertAll {V : Type} (l : List (GoString × V)) :
    ∀ (m : List (GoString × V)), (l.map Prod.fst).Nodup → ∀ k,
      mapGet (insertAll l m) k = (mapGet l k).orElse (fun _ => mapGet m k) := by
  induction l with
  | nil =>
    intro m _ k
    simp [insertAll, mapGet]
  | cons p rest ih =>
    intro m hnodup k
    obtain ⟨k1, v1⟩ := p
    simp only [List.map_cons, List.nodup_cons] at hnodup
    have hstep : insertAll ((k1, v1) :: rest) m = insertAll rest (mapSet m k1 v1) := rfl
    rw [hstep, ih (mapSet m k1 v1) hnodup.2 k]
    by_cases h : k1 = k
    · subst h
      rw [mapGet_eq_none rest k1 hnodup.1]
      simp [mapGet, mapGet_mapSet_same]
    · simp only [mapGet, if_neg h]
      rw [mapGet_mapSet_other m k1 k v1 (Ne.symm h)]

theorem insertByKey_perm {V : Type} (e : GoString × V) (l : List (GoString × V)) :
    (insertByKey e l).Perm (e :: l) := by
  induction l with
  | nil => exact List.Perm.refl _
  | cons f rest ih =>
    unfold insertByKey
    split_ifs
    · exact List.Perm.refl _
    · exact (List.Perm.cons f ih).trans (List.Perm.swap e f rest)

theorem sortByKey_perm {V : Type} (l : List (GoString × V)) : (sortByKey l).Perm l := by
  induction l with
  | nil => exact List.Perm.refl _
  | cons e rest ih =>
    exact (insertByKey_perm e (sortByKey rest)).trans (List.Perm.cons e ih)

theorem int_of_sign_natAbs (x : Int) :
    (if decide (x < 0) = true then -((x.natAbs : Nat) : Int) else ((x.natAbs : Nat) : Int)) = x := by
  by_cases h : x < 0
  · simp only [h, decide_True, if_true]
    omega
  · simp only [h, decide_False, Bool.false_eq_true, if_false]
    omega

theorem storeAttachment_marshal (a : Attachment) (hct : validUTF8 a.ContentType)
    (hlen : isInt64 a.Length) : storeAttachment (marshalAttachment a) = (a, false) := by
  have h1 : lookupField attachmentFields (str "follows") = some .follows := by decide
  have h2 : lookupField attachmentFields (str "content_type") = some .contentType := by decide
  have h3 : lookupField attachmentFields (str "length") = some .length := by decide
  unfold validUTF8 at hct
  unfold isInt64 at hlen
  simp only [storeAttachment, marshalAttachment, List.foldl_cons, List.foldl_nil,
    storeAttachmentMember, h1, h2, h3, storeBool, storeString, storeInt, hct,
    int_of_sign_natAbs, hlen, Attachment.zero, and_self, if_true, Bool.or_false]

theorem foldl_storeMapEntry_marshal (l : AttachmentMap) :
    ∀ (m : AttachmentMap),
      (∀ p ∈ l, validUTF8 p.1 ∧ validUTF8 p.2.ContentType ∧ isInt64 p.2.Length) →
      (l.map (fun p => (toValidUTF8 p.1, marshalAttachment p.2))).foldl storeMapEntry (m, false) =
        (insertAll l m, false) := by
  induction l with
  | nil =>
    intro m _
    rfl
  | cons p rest ih =>
    intro m h
    have hp := h p (List.mem_cons_self _ _)
    have hk : toValidUTF8 p.1 = p.1 := hp.1
    simp only [List.map_cons, List.foldl_cons, storeMapEntry, hk,
      storeAttachment_marshal p.2 hp.2.1 hp.2.2, Bool.or_false]
    rw [ih (mapSet m p.1 p.2) (fun x hx => h x (List.mem_cons_of_mem _ hx))]
    rfl

theorem coerceLoop_runes (runes : List Nat) :
    ∀ fuel, runes.length ≤ fuel →
      (∀ r ∈ runes, r < 0xD800 ∨ (0xE000 ≤ r ∧ r ≤ 0x10FFFF)) →
      coerceLoop fuel (runes.flatMap utf8Encode) = runes.flatMap utf8Encode := by
  induction runes with
  | nil =>
    intro fuel _ _
    cases fuel <;> simp [coerceLoop]
  | cons r rest ih =>
    intro fuel hfuel hv
    cases fuel with
    | zero => simp at hfuel
    | succ fuel =>
      have hr := hv r (List.mem_cons_self _ _)
      have hd := decodeRune_utf8Encode r hr (rest.flatMap utf8Encode)
      have hpos := utf8Encode_length_pos r
      simp only [List.flatMap_cons]
      cases he : utf8Encode r with
      | nil => rw [he] at hpos; simp at hpos
      | cons b tail =>
        rw [he] at hd
        simp only [List.cons_append] at hd ⊢
        have hne : ¬ ((b :: tail).length = 1 ∧ r = runeError) := by
          rintro ⟨h1, h2⟩
          have := utf8Encode_length_eq_one r (by rw [he]; exact h1)
          simp only [runeError] at h2
          omega
        have hrec := ih fuel (by simpa using hfuel)
          (fun x hx => hv x (List.mem_cons_of_mem _ hx))
        simp only [coerceLoop, hd, if_neg hne]
        have e1 : List.take (b :: tail).length (b :: (tail ++ rest.flatMap utf8Encode)) =
            b :: tail := by
          rw [← List.cons_append]
          exact List.take_left' rfl
        have e2 : List.drop (b :: tail).length (b :: (tail ++ rest.flatMap utf8Encode)) =
            rest.flatMap utf8Encode := by
          rw [← List.cons_append]
          exact List.drop_left' rfl
        rw [e1, e2, hrec]
        rfl

/-- Every sequence of Unicode scalar values, UTF-8 encoded, is well-formed UTF-8. -/
theorem validUTF8_runes (runes : List Nat)
    (hv : ∀ r ∈ runes, r < 0xD800 ∨ (0xE000 ≤ r ∧ r ≤ 0x10FFFF)) :
    validUTF8 (runes.flatMap utf8Encode) := by
  unfold validUTF8 toValidUTF8
  exact coerceLoop_runes runes _ (flatMap_utf8Encode_length runes) hv

theorem unmarshal_marshalDocument (d : Document) (hwf : d.wellFormed) :
    unmarshalDocument (marshalDocument d) = .ok
      { Id := d.Id, Rev := d.Rev,
        Attachments := match d.Attachments with
          | none => none
          | some [] => none
          | some (e :: m) => some (insertAll (sortByKey (e :: m)) []) } := by
  obtain ⟨hid, hrev, hatt⟩ := hwf
  unfold validUTF8 at hid hrev
  have h1 : lookupField documentFields (str "_id") = some .id := by decide
  have h2 : lookupField documentFields (str "_rev") = some .rev := by decide
  have h3 : lookupField documentFields (str "_attachments") = some .attachments := by decide
  have hA : ∀ acc : Document × Bool,
      (if d.Id = [] then [] else [(str "_id", JValue.string (toValidUTF8 d.Id))]).foldl
        storeDocumentMember acc =
      if d.Id = [] then acc else ({ acc.1 with Id := d.Id }, acc.2) := by
    intro acc
    split_ifs
    · rfl
    · simp [storeDocumentMember, h1, storeString, hid]
  have hB : ∀ acc : Document × Bool,
      (if d.Rev = [] then [] else [(str "_rev", JValue.string (toValidUTF8 d.Rev))]).foldl
        storeDocumentMember acc =
      if d.Rev = [] then acc else ({ acc.1 with Rev := d.Rev }, acc.2) := by
    intro acc
    split_ifs
    · rfl
    · simp [storeDocumentMember, h2, storeString, hrev]
  unfold unmarshalDocument marshalDocument
  simp only [List.foldl_append, hA, hB]
  cases hm : d.Attachments with
  | none =>
    by_cases hi : d.Id = [] <;> by_cases hr : d.Rev = [] <;>
      simp [hi, hr, Document.zero]
  | some m =>
    cases m with
    | nil =>
      by_cases hi : d.Id = [] <;> by_cases hr : d.Rev = [] <;>
        simp [hi, hr, Document.zero]
    | cons e m =>
      have hw := hatt (e :: m) hm
      have hs : ∀ p ∈ sortByKey (e :: m),
          validUTF8 p.1 ∧ validUTF8 p.2.ContentType ∧ isInt64 p.2.Length :=
        fun p hp => hw.2 p ((sortByKey_perm (e :: m)).mem_iff.mp hp)
      have hf := foldl_storeMapEntry_marshal (sortByKey (e :: m)) [] hs
      by_cases hi : d.Id = [] <;> by_cases hr : d.Rev = [] <;>
        simp [hi, hr, Document.zero, storeDocumentMember, h3, storeAttachments, hf]

/-! ## Lemmas on `strings.TrimPrefix` and on the panics of `quote` -/

theorem stringsHasPrefix_append (pre n : GoString) : stringsHasPrefix (pre ++ n) pre = true := by
  induction pre with
  | nil => cases n <;> rfl
  | cons p rest ih => simp [stringsHasPrefix, ih]

theorem stringsHasPrefix_eq_true (s pre : GoString) (h : stringsHasPrefix s pre = true) :
    s = pre ++ s.drop pre.length := by
  induction pre generalizing s with
  | nil => rfl
  | cons p rest ih =>
    cases s with
    | nil => simp [stringsHasPrefix] at h
    | cons c s1 =>
      simp only [stringsHasPrefix, Bool.and_eq_true, decide_eq_true_eq] at h
      have := ih s1 h.2
      simp only [List.length_cons, List.drop_succ_cons, List.cons_append, h.1]
      rw [← this]

theorem stringsTrimPrefix_append (pre n : GoString) : stringsTrimPrefix (pre ++ n) pre = n := by
  unfold stringsTrimPrefix
  rw [if_pos (stringsHasPrefix_append pre n)]
  exact List.drop_left' rfl

theorem quoteStep_eq_none (tbl : Nat → Bool) (values : Values) (key : GoString)
    (value : StringSlice) (h : index0 value = none) : quoteStep tbl values key value = none := by
  unfold quoteStep
  split_ifs <;> simp [h]

theorem quoteStep_ne_none (tbl : Nat → Bool) (values : Values) (key : GoString)
    (value : StringSlice) (h : index0 value ≠ none) :
    ∃ values1, quoteStep tbl values key value = some values1 := by
  obtain ⟨v0, h0⟩ := Option.ne_none_iff_exists'.mp h
  unfold quoteStep
  split_ifs
  · simp [h0]
  · simp only [h0]
    split_ifs
    · exact ⟨_, rfl⟩
    · exact ⟨_, rfl⟩

theorem quoteLoop_eq_none_iff (tbl : Nat → Bool) (todo : List (GoString × StringSlice)) :
    ∀ values : Values, quoteLoop tbl todo values = none ↔ ∃ p ∈ todo, index0 p.2 = none := by
  induction todo with
  | nil =>
    intro values
    simp [quoteLoop]
  | cons q rest ih =>
    intro values
    obtain ⟨key, value⟩ := q
    by_cases h : index0 value = none
    · simp only [quoteLoop, quoteStep_eq_none tbl values key value h, true_iff]
      exact ⟨(key, value), List.mem_cons_self _ _, h⟩
    · obtain ⟨values1, hstep⟩ := quoteStep_ne_none tbl values key value h
      simp only [quoteLoop, hstep, ih values1, List.mem_cons, exists_eq_or_imp, h, false_or]

theorem index0_eq_none_iff (value : StringSlice) :
    index0 value = none ↔ value = none ∨ value = some [] := by
  cases value with
  | none => simp [index0]
  | some l => cases l <;> simp [index0]

/-! ## Claims about `quote` -/

/-- C1: for every parameter name other than `startkey` and `endkey` whose value list starts
    with `v`, `quote` leaves the value list unchanged when `v` is exactly `true` or `false`,
    and otherwise sets it to the single value `strconv.Quote(v)`; for `v` made of printable
    runes other than the double quote and the backslash, `strconv.Quote(v)` is `v` between
    two double quotes.  (A map in which every parameter has a first value is required for
    `quote` to return at all.) -/
theorem quote_ordinary_parameter (tbl : Nat → Bool) (values : Values) (key v : GoString)
    (vs : List GoString)
    (hnodup : (values.map Prod.fst).Nodup)
    (hall : ∀ p ∈ values, index0 p.2 ≠ none)
    (hmem : (key, some (v :: vs)) ∈ values)
    (hkey : key ≠ str "startkey" ∧ key ≠ str "endkey") :
    ∃ out, quote tbl values = some out ∧
      ((v = str "true" ∨ v = str "false") → Values.get out key = some (some (v :: vs))) ∧
      (¬ (v = str "true" ∨ v = str "false") →
        Values.get out key = some (some [strconvQuote tbl v])) ∧
      (∀ runes : List Nat, v = runes.flatMap utf8Encode →
        (∀ r ∈ runes, validRune r = true ∧ r ≠ 0x22 ∧ r ≠ 0x5C ∧ isPrint tbl r = true) →
        strconvQuote tbl v = [0x22] ++ v ++ [0x22]) := by
  obtain ⟨out, hq, hspec⟩ := quote_spec tbl values hnodup hall
  have hk : ¬ (key = str "startkey" ∨ key = str "endkey") := by
    rintro (h | h)
    · exact hkey.1 h
    · exact hkey.2 h
  have hget := hspec (key, some (v :: vs)) hmem v rfl
  simp only [quotedValue, if_neg hk] at hget
  refine ⟨out, hq, ?_, ?_, ?_⟩
  · intro hb
    have hn : ¬ (v ≠ str "true" ∧ v ≠ str "false") := by
      rintro ⟨h1, h2⟩
      rcases hb with h | h
      · exact h1 h
      · exact h2 h
    rw [if_neg hn] at hget
    exact hget
  · intro hb
    have hp : v ≠ str "true" ∧ v ≠ str "false" :=
      ⟨fun h => hb (Or.inl h), fun h => hb (Or.inr h)⟩
    rw [if_pos hp] at hget
    exact hget
  · intro runes hv hr
    subst hv
    apply strconvQuote_plain tbl runes
    · intro r hmem
      have := (hr r hmem).1
      simp only [validRune, Bool.or_eq_true, Bool.and_eq_true, decide_eq_true_eq] at this
      exact this
    · intro r hmem
      exact (hr r hmem).2

/-- C1, witness: `key = foo1` becomes `"foo1"`. -/
theorem quote_ordinary_parameter_witness :
    quote (fun _ => false) [(str "key", some [str "foo1"])] =
      some [(str "key", some [str "\"foo1\""])] ∧
    ∃ out, quote (fun _ => false) [(str "key", some [str "foo1"])] = some out ∧
      ((str "foo1" = str "true" ∨ str "foo1" = str "false") →
        Values.get out (str "key") = some (some [str "foo1"])) ∧
      (¬ (str "foo1" = str "true" ∨ str "foo1" = str "false") →
        Values.get out (str "key") = some (some [strconvQuote (fun _ => false) (str "foo1")])) ∧
      (∀ runes : List Nat, str "foo1" = runes.flatMap utf8Encode →
        (∀ r ∈ runes, validRune r = true ∧ r ≠ 0x22 ∧ r ≠ 0x5C ∧
          isPrint (fun _ => false) r = true) →
        strconvQuote (fun _ => false) (str "foo1") = [0x22] ++ str "foo1" ++ [0x22]) :=
  ⟨by decide,
   quote_ordinary_parameter (fun _ => false) [(str "key", some [str "foo1"])] (str "key")
    (str "foo1") [] (by decide) (by decide) (by decide) (by decide)⟩

set_option maxRecDepth 100000 in
set_option exponentiation.threshold 2000 in
/-- C2: for `startkey` and `endkey` with first value `v`, `quote` splits `v` at every comma
    (the pieces contain no comma and, joined by commas, give `v` back), keeps every piece
    that `strconv.ParseFloat` accepts, replaces every other piece by `strconv.Quote` of it,
    and joins the pieces, in the same number and order, by commas (inside brackets).
    What `strconv.ParseFloat` accepts: a decimal number exactly when its value is below
    `(2^54 - 1) * 2^970`, the bound from which a `float64` rounds to an infinity, every
    string of `parseFloatAccepted`, and no string of `parseFloatRejected`. -/
theorem quote_range_components (tbl : Nat → Bool) (values : Values) (key v : GoString)
    (vs : List GoString)
    (hnodup : (values.map Prod.fst).Nodup)
    (hall : ∀ p ∈ values, index0 p.2 ≠ none)
    (hmem : (key, some (v :: vs)) ∈ values)
    (hkey : key = str "startkey" ∨ key = str "endkey") :
    (∃ out, quote tbl values = some out ∧
      Values.get out key = some (some [str "[" ++ stringsJoin ((stringsSplit v).map
        (fun c => if parseFloatOk c = true then c else strconvQuote tbl c)) ++ str "]"])) ∧
    stringsJoin (stringsSplit v) = v ∧
    (∀ c ∈ stringsSplit v, (0x2C : UInt8) ∉ c) ∧
    ((stringsSplit v).map
      (fun c => if parseFloatOk c = true then c else strconvQuote tbl c)).length =
        (stringsSplit v).length ∧
    (∀ ds : GoString, isDigits ds →
      (parseFloatOk ds = true ↔ decimalValue ds < float64Overflow)) ∧
    float64Overflow = (2 ^ 54 - 1) * 2 ^ 970 ∧
    (∀ c ∈ parseFloatAccepted, parseFloatOk c = true) ∧
    (∀ c ∈ parseFloatRejected, parseFloatOk c = false) := by
  obtain ⟨out, hq, hspec⟩ := quote_spec tbl values hnodup hall
  have hget := hspec (key, some (v :: vs)) hmem v rfl
  simp only [quotedValue, if_pos hkey] at hget
  exact ⟨⟨out, hq, hget⟩, stringsJoin_split v, stringsSplit_no_comma v, List.length_map _ _,
    parseFloatOk_digits_iff, float64Overflow_eq, by decide, by decide⟩

/-- C2, witness: `startkey = foo2,20` yields the components `"foo2"` and `20`, and the
    numeric-looking `endkey = 2020` is emitted without quotes. -/
theorem quote_range_components_witness :
    quote (fun _ => false)
        [(str "startkey", some [str "foo2,20"]), (str "endkey", some [str "2020"])] =
      some [(str "startkey", some [str "[\"foo2\",20]"]), (str "endkey", some [str "[2020]"])] ∧
    stringsSplit (str "foo2,20") = [str "foo2", str "20"] ∧
    (∃ out, quote (fun _ => false)
        [(str "startkey", some [str "foo2,20"]), (str "endkey", some [str "2020"])] = some out ∧
      Values.get out (str "startkey") = some (some [str "[" ++ stringsJoin
        ((stringsSplit (str "foo2,20")).map
          (fun c => if parseFloatOk c = true then c else strconvQuote (fun _ => false) c))
        ++ str "]"])) ∧
    stringsJoin (stringsSplit (str "foo2,20")) = str "foo2,20" ∧
    (∀ c ∈ stringsSplit (str "foo2,20"), (0x2C : UInt8) ∉ c) :=
  ⟨by decide, by decide,
   (quote_range_components (fun _ => false)
    [(str "startkey", some [str "foo2,20"]), (str "endkey", some [str "2020"])]
    (str "startkey") (str "foo2,20") [] (by decide) (by decide) (by decide) (by decide)).1,
   (quote_range_components (fun _ => false)
    [(str "startkey", some [str "foo2,20"]), (str "endkey", some [str "2020"])]
    (str "startkey") (str "foo2,20") [] (by decide) (by decide) (by decide) (by decide)).2.1,
   (quote_range_components (fun _ => false)
    [(str "startkey", some [str "foo2,20"]), (str "endkey", some [str "2020"])]
    (str "startkey") (str "foo2,20") [] (by decide) (by decide) (by decide) (by decide)).2.2.1⟩

/-- C3, counterexample: with exactly one component the value is still wrapped in brackets:
    `startkey = foo` yields `["foo"]`, not `"foo"`, and `endkey = 20` yields `[20]`, not
    `20`. -/
theorem quote_single_component_bracketed :
    stringsSplit (str "foo") = [str "foo"] ∧ stringsSplit (str "20") = [str "20"] ∧
    quote (fun _ => false) [(str "startkey", some [str "foo"]), (str "endkey", some [str "20"])] =
      some [(str "startkey", some [str "[\"foo\"]"]), (str "endkey", some [str "[20]"])] ∧
    quote (fun _ => false) [(str "startkey", some [str "foo"]), (str "endkey", some [str "20"])] ≠
      some [(str "startkey", some [str "\"foo\""]), (str "endkey", some [str "20"])] := by
  decide

/-- C3, amended: for `startkey` and `endkey`, `quote` wraps the processed component list
    (the pieces between the commas, each kept when `strconv.ParseFloat` accepts it and
    quoted otherwise, joined by commas) in `[` and `]` whatever the number of components;
    a value without a comma is one component, emitted unchanged when `strconv.ParseFloat`
    accepts it and quoted otherwise, inside the brackets. -/
theorem quote_range_always_bracketed (tbl : Nat → Bool) (values : Values) (key v : GoString)
    (vs : List GoString)
    (hnodup : (values.map Prod.fst).Nodup)
    (hall : ∀ p ∈ values, index0 p.2 ≠ none)
    (hmem : (key, some (v :: vs)) ∈ values)
    (hkey : key = str "startkey" ∨ key = str "endkey") :
    ∃ out, quote tbl values = some out ∧
      Values.get out key = some (some [[0x5B] ++ stringsJoin ((stringsSplit v).map
        (fun c => if parseFloatOk c = true then c else strconvQuote tbl c)) ++ [0x5D]]) ∧
      1 ≤ (stringsSplit v).length ∧
      ((0x2C : UInt8) ∉ v →
        stringsSplit v = [v] ∧
        Values.get out key = some (some [[0x5B] ++
          (if parseFloatOk v = true then v else strconvQuote tbl v) ++ [0x5D]])) := by
  obtain ⟨out, hq, hspec⟩ := quote_spec tbl values hnodup hall
  have hget := hspec (key, some (v :: vs)) hmem v rfl
  simp only [quotedValue, if_pos hkey] at hget
  have hb : str "[" = [0x5B] := by decide
  have hc : str "]" = [0x5D] := by decide
  rw [hb, hc] at hget
  have hpos : 1 ≤ (stringsSplit v).length := by
    have := stringsSplit_ne_nil v
    cases h : stringsSplit v with
    | nil => exact absurd h this
    | cons a l => simp
  refine ⟨out, hq, hget, hpos, ?_⟩
  intro hcomma
  refine ⟨stringsSplit_single v hcomma, ?_⟩
  rw [hget, stringsSplit_single v hcomma]
  simp [stringsJoin, quoteElement]

/-- C3, amended, witness: `startkey = foo` gives `["foo"]`, `startkey = 20` gives `[20]`,
    and `startkey = foo2,20` gives `["foo2",20]`. -/
theorem quote_range_always_bracketed_witness :
    quote (fun _ => false) [(str "startkey", some [str "foo"])] =
      some [(str "startkey", some [str "[\"foo\"]"])] ∧
    quote (fun _ => false) [(str "startkey", some [str "20"])] =
      some [(str "startkey", some [str "[20]"])] ∧
    quote (fun _ => false) [(str "startkey", some [str "foo2,20"])] =
      some [(str "startkey", some [str "[\"foo2\",20]"])] ∧
    ∃ out, quote (fun _ => false) [(str "startkey", some [str "foo"])] = some out ∧
      Values.get out (str "startkey") = some (some [[0x5B] ++ stringsJoin
        ((stringsSplit (str "foo")).map
          (fun c => if parseFloatOk c = true then c else strconvQuote (fun _ => false) c))
        ++ [0x5D]]) ∧
      1 ≤ (stringsSplit (str "foo")).length ∧
      ((0x2C : UInt8) ∉ str "foo" →
        stringsSplit (str "foo") = [str "foo"] ∧
        Values.get out (str "startkey") = some (some [[0x5B] ++
          (if parseFloatOk (str "foo") = true then str "foo"
            else strconvQuote (fun _ => false) (str "foo")) ++ [0x5D]])) :=
  ⟨by decide, by decide, by decide,
   quote_range_always_bracketed (fun _ => false) [(str "startkey", some [str "foo"])]
    (str "startkey") (str "foo") [] (by decide) (by decide) (by decide) (by decide)⟩

/-- C4, counterexample: a value that is already a JSON literal does not pass through
    unchanged.  `key = "foo1"` (in double quotes) is quoted again, with its quotes escaped,
    and `startkey = ["foo2",20]` is split at its comma, both pieces are quoted, and the
    result is bracketed again. -/
theorem quote_requotes_serialized_value :
    quote (fun _ => false) [(str "key", some [str "\"foo1\""])] =
      some [(str "key", some [str "\"\\\"foo1\\\"\""])] ∧
    quote (fun _ => false) [(str "key", some [str "\"foo1\""])] ≠
      some [(str "key", some [str "\"foo1\""])] ∧
    quote (fun _ => false) [(str "startkey", some [str "[\"foo2\",20]"])] =
      some [(str "startkey", some [str "[\"[\\\"foo2\\\"\",\"20]\"]"])] ∧
    quote (fun _ => false) [(str "startkey", some [str "[\"foo2\",20]"])] ≠
      some [(str "startkey", some [str "[\"foo2\",20]"])] :=
  ⟨by decide, by decide, by decide, by decide⟩

/-- C4, amended: `quote` expects raw values and serializes them itself.  A value passes
    through unchanged exactly when it is the literal `true` or `false` of a parameter other
    than `startkey` and `endkey`.  Every other value is serialized, also when it is a JSON
    literal already: for `startkey` and `endkey` it is split at its commas and bracketed,
    for the other parameters it is `strconv.Quote`d; the emitted value `w` is at least two
    bytes longer than `v`, so never `v` itself; and for a parameter other than `startkey`
    and `endkey` whose value is already in double quotes (around printable runes without
    quote or backslash), `w` is that value with both quotes escaped, inside new quotes. -/
theorem quote_passes_through_iff (tbl : Nat → Bool) (values : Values) (key v : GoString)
    (vs : List GoString)
    (hnodup : (values.map Prod.fst).Nodup)
    (hall : ∀ p ∈ values, index0 p.2 ≠ none)
    (hmem : (key, some (v :: vs)) ∈ values) :
    ∃ out, quote tbl values = some out ∧
      (Values.get out key = some (some (v :: vs)) ↔
        (key ≠ str "startkey" ∧ key ≠ str "endkey" ∧ (v = str "true" ∨ v = str "false"))) ∧
      (¬ (key ≠ str "startkey" ∧ key ≠ str "endkey" ∧ (v = str "true" ∨ v = str "false")) →
        ∃ w, Values.get out key = some (some [w]) ∧ v.length + 2 ≤ w.length ∧ w ≠ v ∧
          ((key = str "startkey" ∨ key = str "endkey") →
            w = str "[" ++ stringsJoin ((stringsSplit v).map
              (fun c => if parseFloatOk c = true then c else strconvQuote tbl c)) ++ str "]") ∧
          (¬ (key = str "startkey" ∨ key = str "endkey") → w = strconvQuote tbl v) ∧
          (∀ runes : List Nat, ¬ (key = str "startkey" ∨ key = str "endkey") →
            v = [0x22] ++ runes.flatMap utf8Encode ++ [0x22] →
            (∀ r ∈ runes, validRune r = true ∧ r ≠ 0x22 ∧ r ≠ 0x5C ∧ isPrint tbl r = true) →
            w = str "\"\\\"" ++ runes.flatMap utf8Encode ++ str "\\\"\"")) := by
  obtain ⟨out, hq, hspec⟩ := quote_spec tbl values hnodup hall
  have hget := hspec (key, some (v :: vs)) hmem v rfl
  have hne : ∀ w : GoString, v.length + 2 ≤ w.length → w ≠ v := by
    intro w hw h
    rw [h] at hw
    omega
  have hsingle : ∀ w : GoString, w ≠ v →
      Values.get out key = some (some [w]) → Values.get out key ≠ some (some (v :: vs)) := by
    intro w hw h1 h2
    rw [h1] at h2
    exact hw (List.cons.inj (Option.some.inj (Option.some.inj h2))).1
  by_cases hk : key = str "startkey" ∨ key = str "endkey"
  · have hnP : ¬ (key ≠ str "startkey" ∧ key ≠ str "endkey" ∧
        (v = str "true" ∨ v = str "false")) := by
      rintro ⟨h1, h2, _⟩
      rcases hk with h | h
      · exact h1 h
      · exact h2 h
    simp only [quotedValue, if_pos hk] at hget
    have hlen : v.length + 2 ≤ (str "[" ++ stringsJoin ((stringsSplit v).map (quoteElement tbl))
        ++ str "]").length := by
      have h1 := stringsJoin_map_length (quoteElement tbl) (quoteElement_length tbl)
        (stringsSplit v)
      rw [stringsJoin_split] at h1
      have hb : (str "[").length = 1 := by decide
      have hc : (str "]").length = 1 := by decide
      simp only [List.length_append, hb, hc]
      omega
    refine ⟨out, hq, ⟨fun h => absurd h (hsingle _ (hne _ hlen) hget), fun h => absurd h hnP⟩,
      fun _ => ⟨_, hget, hlen, hne _ hlen, fun _ => rfl, fun h => absurd hk h,
        fun _ h => absurd hk h⟩⟩
  · by_cases hb : v = str "true" ∨ v = str "false"
    · have hn : ¬ (v ≠ str "true" ∧ v ≠ str "false") := by
        rintro ⟨h1, h2⟩
        rcases hb with h | h
        · exact h1 h
        · exact h2 h
      simp only [quotedValue, if_neg hk, if_neg hn] at hget
      have hP : key ≠ str "startkey" ∧ key ≠ str "endkey" ∧
          (v = str "true" ∨ v = str "false") :=
        ⟨fun h => hk (Or.inl h), fun h => hk (Or.inr h), hb⟩
      exact ⟨out, hq, ⟨fun _ => hP, fun _ => hget⟩, fun h => absurd hP h⟩
    · have hp : v ≠ str "true" ∧ v ≠ str "false" :=
        ⟨fun h => hb (Or.inl h), fun h => hb (Or.inr h)⟩
      have hnP : ¬ (key ≠ str "startkey" ∧ key ≠ str "endkey" ∧
          (v = str "true" ∨ v = str "false")) := fun h => hb h.2.2
      simp only [quotedValue, if_neg hk, if_pos hp] at hget
      have hlen := strconvQuote_length tbl v
      refine ⟨out, hq, ⟨fun h => absurd h (hsingle _ (hne _ hlen) hget), fun h => absurd h hnP⟩,
        fun _ => ⟨_, hget, hlen, hne _ hlen, fun h => absurd h hk, fun _ => rfl, ?_⟩⟩
      intro runes _ hvq hr
      have hvalid : ∀ r ∈ (0x22 :: runes ++ [0x22]),
          r < 0xD800 ∨ (0xE000 ≤ r ∧ r ≤ 0x10FFFF) := by
        intro r hmem
        simp only [List.cons_append, List.mem_cons, List.mem_append, List.mem_singleton,
          List.not_mem_nil, or_false] at hmem
        rcases hmem with h | h | h
        · omega
        · have := (hr r h).1
          simp only [validRune, Bool.or_eq_true, Bool.and_eq_true, decide_eq_true_eq] at this
          exact this
        · omega
      have hv2 : v = (0x22 :: runes ++ [0x22]).flatMap utf8Encode := by
        rw [hvq]
        have e : utf8Encode 0x22 = [0x22] := by decide
        simp [List.flatMap_cons, List.flatMap_append, e]
      have hq22 : appendEscapedRune tbl 0x22 = [0x5C, 0x22] := by
        unfold appendEscapedRune
        rw [if_pos (Or.inl rfl)]
        rfl
      have hplain : runes.flatMap (appendEscapedRune tbl) = runes.flatMap utf8Encode := by
        clear hvq hv2 hvalid
        induction runes with
        | nil => rfl
        | cons r rest ih =>
          simp only [List.flatMap_cons]
          rw [appendEscapedRune_plain tbl r (hr r (List.mem_cons_self _ _)).2,
            ih (fun x hx => hr x (List.mem_cons_of_mem _ hx))]
      have hs1 : str "\"\\\"" = [0x22, 0x5C, 0x22] := by decide
      have hs2 : str "\\\"\"" = [0x5C, 0x22, 0x22] := by decide
      rw [hv2, strconvQuote_runes tbl _ hvalid, hs1, hs2]
      simp [List.flatMap_cons, List.flatMap_append, hq22, hplain]

/-- C4, amended, witness: `key = "foo1"`, already in double quotes, is quoted again;
    `"foo1"` and `["foo2",20]` are what `quote` emits for the raw values `foo1` and
    `foo2,20`; `key = true` passes through and `startkey = true` does not. -/
theorem quote_passes_through_iff_witness :
    quote (fun _ => false) [(str "key", some [str "foo1"])] =
      some [(str "key", some [str "\"foo1\""])] ∧
    quote (fun _ => false) [(str "startkey", some [str "foo2,20"])] =
      some [(str "startkey", some [str "[\"foo2\",20]"])] ∧
    quote (fun _ => false) [(str "key", some [str "true"])] =
      some [(str "key", some [str "true"])] ∧
    quote (fun _ => false) [(str "startkey", some [str "true"])] =
      some [(str "startkey", some [str "[\"true\"]"])] ∧
    ∃ out, quote (fun _ => false) [(str "key", some [str "\"foo1\""])] = some out ∧
      (Values.get out (str "key") = some (some [str "\"foo1\""]) ↔
        (str "key" ≠ str "startkey" ∧ str "key" ≠ str "endkey" ∧
          (str "\"foo1\"" = str "true" ∨ str "\"foo1\"" = str "false"))) ∧
      (¬ (str "key" ≠ str "startkey" ∧ str "key" ≠ str "endkey" ∧
          (str "\"foo1\"" = str "true" ∨ str "\"foo1\"" = str "false")) →
        ∃ w, Values.get out (str "key") = some (some [w]) ∧
          (str "\"foo1\"").length + 2 ≤ w.length ∧ w ≠ str "\"foo1\"" ∧
          ((str "key" = str "startkey" ∨ str "key" = str "endkey") →
            w = str "[" ++ stringsJoin ((stringsSplit (str "\"foo1\"")).map
              (fun c => if parseFloatOk c = true then c
                else strconvQuote (fun _ => false) c)) ++ str "]") ∧
          (¬ (str "key" = str "startkey" ∨ str "key" = str "endkey") →
            w = strconvQuote (fun _ => false) (str "\"foo1\"")) ∧
          (∀ runes : List Nat, ¬ (str "key" = str "startkey" ∨ str "key" = str "endkey") →
            str "\"foo1\"" = [0x22] ++ runes.flatMap utf8Encode ++ [0x22] →
            (∀ r ∈ runes, validRune r = true ∧ r ≠ 0x22 ∧ r ≠ 0x5C ∧
              isPrint (fun _ => false) r = true) →
            w = str "\"\\\"" ++ runes.flatMap utf8Encode ++ str "\\\"\"")) :=
  ⟨by decide, by decide, by decide, by decide,
   quote_passes_through_iff (fun _ => false) [(str "key", some [str "\"foo1\""])] (str "key")
    (str "\"foo1\"") [] (by decide) (by decide) (by decide)⟩

/-- C5, counterexample: outside `startkey` and `endkey` a decimal number is wrapped in
    string quotes like any other value: `key = 20`, `limit = 10` and `skip = 0` come out as
    `"20"`, `"10"` and `"0"`, each containing double quotes. -/
theorem quote_quotes_numeric_scalars :
    quote (fun _ => false)
        [(str "key", some [str "20"]), (str "limit", some [str "10"]),
         (str "skip", some [str "0"])] =
      some [(str "key", some [str "\"20\""]), (str "limit", some [str "\"10\""]),
            (str "skip", some [str "\"0\""])] ∧
    (0x22 : UInt8) ∈ str "\"20\"" ∧ (0x22 : UInt8) ∈ str "\"10\"" ∧
    (0x22 : UInt8) ∈ str "\"0\"" := by
  decide

/-- C5, amended: `quote` leaves a numeric value unquoted only as a component of `startkey`
    or `endkey`.  For these two parameters a value that is a decimal number (a non-empty
    string of at most 308 digits) is emitted as itself between `[` and `]`, and the emitted
    value contains no double-quote character; for every other parameter name the same
    value is emitted between two double quotes. -/
theorem quote_numeric_value (tbl : Nat → Bool) (values : Values) (key v : GoString)
    (vs : List GoString)
    (hnodup : (values.map Prod.fst).Nodup)
    (hall : ∀ p ∈ values, index0 p.2 ≠ none)
    (hmem : (key, some (v :: vs)) ∈ values)
    (hnum : isDigits v) (hlen : v.length ≤ 308) :
    ∃ out w, quote tbl values = some out ∧ Values.get out key = some (some [w]) ∧
      ((key = str "startkey" ∨ key = str "endkey") →
        w = [0x5B] ++ v ++ [0x5D] ∧ (0x22 : UInt8) ∉ w) ∧
      (¬ (key = str "startkey" ∨ key = str "endkey") → w = [0x22] ++ v ++ [0x22]) := by
  obtain ⟨out, hq, hspec⟩ := quote_spec tbl values hnodup hall
  have hget := hspec (key, some (v :: vs)) hmem v rfl
  have hnc : (0x2C : UInt8) ∉ v := by
    intro h
    have := hnum.2 _ h
    have e : (0x2C : UInt8).toNat = 0x2C := rfl
    omega
  have hnq : (0x22 : UInt8) ∉ v := by
    intro h
    have := hnum.2 _ h
    have e : (0x22 : UInt8).toNat = 0x22 := rfl
    omega
  by_cases hk : key = str "startkey" ∨ key = str "endkey"
  · simp only [quotedValue, if_pos hk] at hget
    have hw : str "[" ++ stringsJoin ((stringsSplit v).map (quoteElement tbl)) ++ str "]" =
        [0x5B] ++ v ++ [0x5D] := by
      have hb : str "[" = [0x5B] := by decide
      have hc : str "]" = [0x5D] := by decide
      rw [stringsSplit_single v hnc, hb, hc]
      simp [stringsJoin, quoteElement, parseFloatOk_digits v hnum hlen]
    rw [hw] at hget
    refine ⟨out, _, hq, hget, fun _ => ⟨rfl, ?_⟩, fun h => absurd hk h⟩
    intro h
    simp only [List.mem_append, List.mem_singleton] at h
    rcases h with (h | h) | h
    · exact absurd h (by decide)
    · exact hnq h
    · exact absurd h (by decide)
  · have hp : v ≠ str "true" ∧ v ≠ str "false" := by
      constructor
      · intro h
        have := hnum.2 0x74 (by rw [h]; decide)
        have e : (0x74 : UInt8).toNat = 0x74 := rfl
        omega
      · intro h
        have := hnum.2 0x66 (by rw [h]; decide)
        have e : (0x66 : UInt8).toNat = 0x66 := rfl
        omega
    simp only [quotedValue, if_neg hk, if_pos hp] at hget
    rw [strconvQuote_digits tbl v hnum] at hget
    exact ⟨out, _, hq, hget, fun h => absurd h hk, fun _ => rfl⟩

/-- C5, amended, witness: `startkey = 20`. -/
theorem quote_numeric_value_witness :
    ∃ out w, quote (fun _ => false) [(str "startkey", some [str "20"])] = some out ∧
      Values.get out (str "startkey") = some (some [w]) ∧
      ((str "startkey" = str "startkey" ∨ str "startkey" = str "endkey") →
        w = [0x5B] ++ str "20" ++ [0x5D] ∧ (0x22 : UInt8) ∉ w) ∧
      (¬ (str "startkey" = str "startkey" ∨ str "startkey" = str "endkey") →
        w = [0x22] ++ str "20" ++ [0x22]) :=
  quote_numeric_value (fun _ => false) [(str "startkey", some [str "20"])] (str "startkey")
    (str "20") [] (by decide) (by decide) (by decide) (by decide) (by decide)

/-! ## Claims about `NewQueryParameters` and `newError` -/

/-- C6: `NewQueryParameters` returns `InclusiveEnd = true` and `Reduce = false`, and every
    other field at its zero value: the other booleans false, `Skip`, `Limit` and
    `GroupLevel` zero, and `Key`, `StartKey`, `EndKey`, `StartKeyDocId`, `EndKeyDocId` and
    `Stale` empty. -/
theorem NewQueryParameters_defaults :
    NewQueryParameters =
      { Conflicts := false, Descending := false, EndKey := [], EndKeyDocId := [],
        Group := false, GroupLevel := 0, IncludeDocs := false, Attachments := false,
        AttEncodingInfo := false, InclusiveEnd := true, Key := [], Limit := 0,
        Reduce := false, Skip := 0, Stale := [], StartKey := [], StartKeyDocId := [],
        UpdateSeq := false } ∧
    NewQueryParameters = { QueryParameters.zero with InclusiveEnd := true } := by
  exact ⟨rfl, rfl⟩

/-- C7, counterexample: a body that is a JSON object, with string members `error` and
    `reason`, for which `newError` returns the error of `json.Unmarshal` and no `*Error`:
    the member `url` (which selects the field `Url`) holds a number. -/
theorem newError_object_type_error :
    parseJSON (str "\x7b\"error\":\"not_found\",\"reason\":\"missing\",\"url\":17\x7d") =
      some (.object [(str "error", .string (str "not_found")),
        (str "reason", .string (str "missing")), (str "url", .number false 17 [])]) ∧
    newError { Body := .ok (str "\x7b\"error\":\"not_found\",\"reason\":\"missing\",\"url\":17\x7d"),
               Request := { Method := str "GET", URL := str "http://127.0.0.1:5984/dummy" },
               StatusCode := 404 } = .decodeFailure .unmarshalType :=
  ⟨rfl, by decide⟩

/-- C7, amended: for every response whose body is a JSON object: when every member that
    selects a field of `Error` fits that field (a string or `null` for `Method`, `Url`,
    `error` and `Reason`, an integer literal within the range of `int64` or `null` for
    `StatusCode`; keys are matched case-insensitively), `newError` returns an `*Error`
    whose `Method` and `Url` are the method and URL of the request, whose `StatusCode` is
    the status code of the response, and whose `Type` and `Reason` are the strings of the
    members `error` and `reason` of the body (the last such member that holds a string;
    empty when there is none, in particular when the member is absent); when some member
    does not fit its field, `newError` returns the `UnmarshalTypeError` of
    `json.Unmarshal` and no `*Error`. -/
theorem newError_object (res : Response) (body : GoString)
    (members : List (GoString × JValue))
    (hbody : res.Body = .ok body)
    (hjson : parseJSON body = some (.object members)) :
    ((∀ m ∈ members, fitsError m = true) →
      newError res = .couchError
        { Method := res.Request.Method, Url := res.Request.URL, StatusCode := res.StatusCode,
          Type_ := stringMember .type members, Reason := stringMember .reason members }) ∧
    (¬ (∀ m ∈ members, fitsError m = true) →
      newError res = .decodeFailure .unmarshalType) ∧
    ((∀ m ∈ members, lookupField errorFields m.1 ≠ some .type) →
      stringMember .type members = []) ∧
    ((∀ m ∈ members, lookupField errorFields m.1 ≠ some .reason) →
      stringMember .reason members = []) ∧
    (∀ (key : GoString) (v : JValue), fitsError (key, v) = true ↔
      (lookupField errorFields key = none ∨ v = .null ∨
        (lookupField errorFields key ≠ some .statusCode ∧ ∃ s, v = .string s) ∨
        (lookupField errorFields key = some .statusCode ∧
          ∃ neg n, v = .number neg n [] ∧
            isInt64 (if neg = true then -(n : Int) else (n : Int))))) := by
  refine ⟨?_, ?_, stringMember_absent _ members, stringMember_absent _ members,
    fitsError_iff⟩
  · intro hfit
    have h := foldl_storeErrorMember_fits members (Error.zero, false) rfl hfit
    unfold newError
    rw [hbody]
    simp only [unmarshalError, hjson, h.1, Bool.false_eq_true, if_false]
    have h1 := h.2.1
    have h2 := h.2.2
    simp only [Error.zero] at h1 h2
    simp only [stringMember, Error.zero, h1, h2]
  · intro hnot
    have hany : members.any (fun m => !fitsError m) = true := by
      rw [List.any_eq_true]
      by_contra hcon
      apply hnot
      intro m hm
      by_contra hf
      exact hcon ⟨m, hm, by simp [hf]⟩
    have hflag := foldl_storeErrorMember_flag members (Error.zero, false)
    rw [hany] at hflag
    unfold newError
    rw [hbody]
    simp only [unmarshalError, hjson, hflag, Bool.or_true, if_true]

/-- C7, amended, witness: the body `{"error":"not_found","reason":"missing"}` of a 404
    response to a GET gives the `*Error`; the body `{"StatusCode":9223372036854775808}`,
    an integer literal outside the range of `int64`, gives the type error; the key `ERROR`
    selects the field `Type`, the key `type` selects none. -/
theorem newError_object_witness :
    newError { Body := .ok (str "\x7b\"error\":\"not_found\",\"reason\":\"missing\"\x7d"),
               Request := { Method := str "GET", URL := str "http://127.0.0.1:5984/dummy" },
               StatusCode := 404 } =
      .couchError { Method := str "GET", Url := str "http://127.0.0.1:5984/dummy",
                    StatusCode := 404, Type_ := str "not_found", Reason := str "missing" } ∧
    newError { Body := .ok (str "\x7b\"StatusCode\":9223372036854775808\x7d"),
               Request := { Method := str "GET", URL := str "http://127.0.0.1:5984/dummy" },
               StatusCode := 404 } = .decodeFailure .unmarshalType ∧
    stringMember .type [(str "error", JValue.string (str "not_found")),
      (str "reason", JValue.string (str "missing"))] = str "not_found" ∧
    stringMember .reason [(str "error", JValue.string (str "not_found")),
      (str "reason", JValue.string (str "missing"))] = str "missing" ∧
    lookupField errorFields (str "ERROR") = some .type ∧
    lookupField errorFields (str "type") = none :=
  ⟨((newError_object
      { Body := .ok (str "\x7b\"error\":\"not_found\",\"reason\":\"missing\"\x7d"),
        Request := { Method := str "GET", URL := str "http://127.0.0.1:5984/dummy" },
        StatusCode := 404 }
      (str "\x7b\"error\":\"not_found\",\"reason\":\"missing\"\x7d")
      [(str "error", .string (str "not_found")), (str "reason", .string (str "missing"))]
      rfl rfl).1 (by decide)).trans (by decide),
   (newError_object
      { Body := .ok (str "\x7b\"StatusCode\":9223372036854775808\x7d"),
        Request := { Method := str "GET", URL := str "http://127.0.0.1:5984/dummy" },
        StatusCode := 404 }
      (str "\x7b\"StatusCode\":9223372036854775808\x7d")
      [(str "StatusCode", .number false 9223372036854775808 [])]
      rfl rfl).2.1 (by decide),
   by decide, by decide, by decide, by decide⟩

/-- C8: for a response whose body cannot be read, `newError` returns the read error itself;
    for one whose body is not valid JSON it returns the syntax error of `json.Unmarshal`;
    in both cases the result is not an `*Error`. -/
theorem newError_invalid_body (res : Response)
    (h : (∃ err, res.Body = .error err) ∨
      (∃ body, res.Body = .ok body ∧ parseJSON body = none)) :
    (∀ err, res.Body = .error err → newError res = .readFailure err) ∧
    (∀ body, res.Body = .ok body → newError res = .decodeFailure .malformed) ∧
    (∀ e, newError res ≠ .couchError e) := by
  rcases h with ⟨err, herr⟩ | ⟨body, hbody, hjson⟩
  · have hn : newError res = .readFailure err := by
      unfold newError
      rw [herr]
    refine ⟨?_, ?_, ?_⟩
    · intro err1 h1
      rw [herr] at h1
      cases h1
      exact hn
    · intro body h1
      rw [herr] at h1
      cases h1
    · intro e he
      rw [hn] at he
      cases he
  · have hn : newError res = .decodeFailure .malformed := by
      unfold newError
      rw [hbody]
      simp only [unmarshalError, hjson]
    refine ⟨?_, ?_, ?_⟩
    · intro err1 h1
      rw [hbody] at h1
      cases h1
    · intro body1 _
      exact hn
    · intro e he
      rw [hn] at he
      cases he

/-- C8, witness: an HTML error page as the body. -/
theorem newError_invalid_body_witness :
    (∀ err, (Except.ok (str "<html>Bad Gateway</html>") : Except ReadError GoString) =
        .error err →
      newError { Body := .ok (str "<html>Bad Gateway</html>"),
                 Request := { Method := str "GET", URL := str "http://127.0.0.1:5984/" },
                 StatusCode := 502 } = .readFailure err) ∧
    (∀ body, (Except.ok (str "<html>Bad Gateway</html>") : Except ReadError GoString) =
        .ok body →
      newError { Body := .ok (str "<html>Bad Gateway</html>"),
                 Request := { Method := str "GET", URL := str "http://127.0.0.1:5984/" },
                 StatusCode := 502 } = .decodeFailure .malformed) ∧
    (∀ e, newError { Body := .ok (str "<html>Bad Gateway</html>"),
                     Request := { Method := str "GET", URL := str "http://127.0.0.1:5984/" },
                     StatusCode := 502 } ≠ .couchError e) :=
  newError_invalid_body
    { Body := .ok (str "<html>Bad Gateway</html>"),
      Request := { Method := str "GET", URL := str "http://127.0.0.1:5984/" },
      StatusCode := 502 }
    (Or.inr ⟨str "<html>Bad Gateway</html>", rfl, rfl⟩)

/-! ## Claims about the JSON encoding of `Document` -/

/-- C9, counterexample: a `Document` whose `Id` is the single byte `0xFF` (not UTF-8) comes
    back with `Id` U+FFFD, three other bytes; and a `Document` with an empty, non-nil map
    comes back with a nil map. -/
theorem document_json_changes_invalid_utf8 :
    unmarshalDocument (marshalDocument { Id := [0xFF], Rev := [], Attachments := none }) =
      .ok { Id := [0xEF, 0xBF, 0xBD], Rev := [], Attachments := none } ∧
    ([0xEF, 0xBF, 0xBD] : GoString) ≠ [0xFF] ∧
    unmarshalDocument (marshalDocument { Id := str "doc", Rev := [], Attachments := some [] }) =
      .ok { Id := str "doc", Rev := [], Attachments := none } :=
  ⟨rfl, by decide, rfl⟩

/-- C9, amended: for every `Document` whose strings (`Id`, `Rev`, attachment names and
    content types) are well-formed UTF-8, decoding the JSON produced by encoding it yields
    a `Document` with the same `Id`, the same `Rev` and the same attachment under every
    name; the decoded map is nil exactly when the original map is nil or has no entries
    (`omitempty` leaves both out).  (As in Go, the map holds no key twice and every
    `Length` is an `int64`.) -/
theorem document_json_roundtrip (d : Document) (hwf : d.wellFormed) :
    ∃ d1, unmarshalDocument (marshalDocument d) = .ok d1 ∧ d1.Id = d.Id ∧ d1.Rev = d.Rev ∧
      (∀ name, d1.attachment name = d.attachment name) ∧
      (d1.Attachments = none ↔ (d.Attachments = none ∨ d.Attachments = some [])) := by
  refine ⟨_, unmarshal_marshalDocument d hwf, rfl, rfl, ?_, ?_⟩
  · intro name
    cases hm : d.Attachments with
    | none => simp [Document.attachment, hm]
    | some m =>
      cases m with
      | nil => simp [Document.attachment, hm, mapGet]
      | cons e m =>
        have hw := (hwf.2.2 (e :: m) hm).1
        have hperm := sortByKey_perm (e :: m)
        have hnodup : ((sortByKey (e :: m)).map Prod.fst).Nodup :=
          (hperm.map Prod.fst).nodup_iff.mpr hw
        simp only [Document.attachment, hm]
        rw [mapGet_insertAll _ [] hnodup name, mapGet_perm _ _ hperm hnodup name]
        cases mapGet (e :: m) name <;> simp [mapGet]
  · cases hm : d.Attachments with
    | none => simp
    | some m =>
      cases m with
      | nil => simp
      | cons e m => simp

/-- C9, amended, witness: a document with an id, no revision and two attachments. -/
theorem document_json_roundtrip_witness :
    ∃ d1, unmarshalDocument (marshalDocument
        { Id := str "doc1", Rev := [],
          Attachments := some
            [(str "image.jpg", { Follows := true, ContentType := str "image/jpeg", Length := 7 }),
             (str "a.pdf", { Follows := false, ContentType := str "application/pdf",
                             Length := 0 })] }) = .ok d1 ∧
      d1.Id = str "doc1" ∧ d1.Rev = [] ∧
      (∀ name, d1.attachment name = Document.attachment
        { Id := str "doc1", Rev := [],
          Attachments := some
            [(str "image.jpg", { Follows := true, ContentType := str "image/jpeg", Length := 7 }),
             (str "a.pdf", { Follows := false, ContentType := str "application/pdf",
                             Length := 0 })] } name) ∧
      (d1.Attachments = none ↔
        ((some
            [(str "image.jpg", { Follows := true, ContentType := str "image/jpeg", Length := 7 }),
             (str "a.pdf", { Follows := false, ContentType := str "application/pdf",
                             Length := 0 })] : Option AttachmentMap) = none ∨
         (some
            [(str "image.jpg", { Follows := true, ContentType := str "image/jpeg", Length := 7 }),
             (str "a.pdf", { Follows := false, ContentType := str "application/pdf",
                             Length := 0 })] : Option AttachmentMap) = some [])) :=
  document_json_roundtrip
    { Id := str "doc1", Rev := [],
      Attachments := some
        [(str "image.jpg", { Follows := true, ContentType := str "image/jpeg", Length := 7 }),
         (str "a.pdf", { Follows := false, ContentType := str "application/pdf",
                         Length := 0 })] }
    ⟨by decide, by decide, fun m hm => by
      cases hm
      exact ⟨by decide, by decide⟩⟩

/-! ## Claims about `writeJSON` and `mimeType` -/

/-- C10, counterexample: the stat of the file succeeds but creating the part fails;
    `writeJSON` returns that error before it touches the document, so the attachment map
    has no entry under the base name of the file, and nothing is written. -/
theorem writeJSON_createPart_fails :
    writeJSON testTypeByExtension (fun _ => str "\x7b\x7d")
        { Id := str "doc1", Rev := [], Attachments := none }
        { parts := [], createPartError := some { message := str "broken pipe" },
          writeError := none }
        { name := str "/tmp/image.jpg", stat := .ok 7 } =
      { document := { Id := str "doc1", Rev := [], Attachments := none },
        writer := { parts := [], createPartError := some { message := str "broken pipe" },
                    writeError := none },
        err := some { message := str "broken pipe" } } ∧
    Document.attachment { Id := str "doc1", Rev := [], Attachments := none }
      (filepathBase (str "/tmp/image.jpg")) = none := by
  decide

/-- C10, amended: for every document and every open file with path `p` and size `n`, when
    creating the part and the stat of the file both succeed, after `writeJSON` the
    attachment map of the document has, under the key `filepath.Base(p)`, the entry
    `{Follows = true, ContentType = mimeType(p), Length = n}`; the bytes handed to the new
    part (the first part when the writer had none) are the serialization of the document
    including that entry, and they are written in full, with a nil error, when that write
    succeeds.  `mimeType` depends only on the extension of the name. -/
theorem writeJSON_attachment (typeByExtension : GoString → GoString)
    (encode : JValue → GoString) (document : Document) (writer : MultipartWriter)
    (file : File) (n : Int)
    (hcreate : writer.createPartError = none) (hstat : file.stat = .ok n) :
    (writeJSON typeByExtension encode document writer file).document.attachment
        (filepathBase file.name) =
      some { Follows := true, ContentType := mimeType typeByExtension file.name,
             Length := n } ∧
    (writer.writeError = none →
      (writeJSON typeByExtension encode document writer file).err = none ∧
      (writeJSON typeByExtension encode document writer file).writer.parts =
        writer.parts ++
          [{ header := [(str "Content-Type", str "application/json")],
             body := encode (marshalDocument
               (writeJSON typeByExtension encode document writer file).document) }]) ∧
    (∀ k err, writer.writeError = some (k, err) →
      (writeJSON typeByExtension encode document writer file).err = some err ∧
      (writeJSON typeByExtension encode document writer file).writer.parts =
        writer.parts ++
          [{ header := [(str "Content-Type", str "application/json")],
             body := (encode (marshalDocument
               (writeJSON typeByExtension encode document writer file).document)).take k }]) ∧
    (∀ a b, filepathExt a = filepathExt b →
      mimeType typeByExtension a = mimeType typeByExtension b) := by
  refine ⟨?_, ?_, ?_, ?_⟩
  · unfold writeJSON
    simp only [hcreate, hstat]
    cases writer.writeError with
    | none => simp [Document.attachment, mapSet, mapGet]
    | some p => simp [Document.attachment, mapSet, mapGet]
  · intro hw
    unfold writeJSON
    simp only [hcreate, hstat, hw]
    simp
  · intro k err hw
    unfold writeJSON
    simp only [hcreate, hstat, hw]
    simp
  · intro a b h
    unfold mimeType
    simp only [h]

/-- C10, amended, witness: `image.jpg` of 7 bytes; `image.jpg` gives `image/jpeg` and
    `presentation.pdf` gives `application/pdf` in the table of `TestMimeType`. -/
theorem writeJSON_attachment_witness :
    mimeType testTypeByExtension (str "image.jpg") = str "image/jpeg" ∧
    mimeType testTypeByExtension (str "presentation.pdf") = str "application/pdf" ∧
    (writeJSON testTypeByExtension (fun _ => str "\x7b\x7d")
        { Id := str "doc1", Rev := [], Attachments := none }
        { parts := [], createPartError := none, writeError := none }
        { name := str "/tmp/image.jpg", stat := .ok 7 }).document.attachment
        (str "image.jpg") =
      some { Follows := true, ContentType := str "image/jpeg", Length := 7 } :=
  ⟨by decide, by decide,
   (writeJSON_attachment testTypeByExtension (fun _ => str "\x7b\x7d")
      { Id := str "doc1", Rev := [], Attachments := none }
      { parts := [], createPartError := none, writeError := none }
      { name := str "/tmp/image.jpg", stat := .ok 7 } 7 rfl rfl).1.trans (by decide)⟩

/-! ## Claims about `DesignDocument.Name` and `NewUser` -/

/-- C11: `DesignDocument.Name` returns the id without the fixed prefix `_design/`: a design
    document with `Id = "_design/" ++ n` has `Name() = n` (one leading occurrence is
    removed, whatever `n` starts with), and a design document whose `Id` does not start
    with `_design/` has `Name() = Id`. -/
theorem DesignDocument_Name_spec (dd : DesignDocument) :
    (∀ n, dd.Id = str "_design/" ++ n → dd.Name = n) ∧
    ((∀ n, dd.Id ≠ str "_design/" ++ n) → dd.Name = dd.Id) := by
  constructor
  · intro n h
    unfold DesignDocument.Name
    rw [h]
    exact stringsTrimPrefix_append _ n
  · intro h
    unfold DesignDocument.Name stringsTrimPrefix
    split_ifs with hp
    · exact absurd (stringsHasPrefix_eq_true _ _ hp) (h _)
    · rfl

/-- C11, witness: `Id = "_design/test"` gives `test`, `Id = "_design/_design/x"` gives
    `_design/x`, and `Id = "test"` stays `test`. -/
theorem DesignDocument_Name_spec_witness :
    (designDocumentWithId (str "_design/test")).Name = str "test" ∧
    (designDocumentWithId (str "_design/_design/x")).Name = str "_design/x" ∧
    (designDocumentWithId (str "test")).Name = str "test" :=
  ⟨(DesignDocument_Name_spec (designDocumentWithId (str "_design/test"))).1 (str "test")
      (by decide),
   (DesignDocument_Name_spec (designDocumentWithId (str "_design/_design/x"))).1
      (str "_design/x") (by decide),
   (DesignDocument_Name_spec (designDocumentWithId (str "test"))).2
      (fun n h => by
        have e : str "_design/" = 0x5F :: str "design/" := by decide
        have e2 : (designDocumentWithId (str "test")).Id = 0x74 :: str "est" := by decide
        rw [e, e2, List.cons_append] at h
        exact absurd (List.cons.inj h).1 (by decide))⟩

/-- C12: `NewUser(name, password, roles)` returns a `User` whose document id is
    `org.couchdb.user:` followed by `name`, whose `Name`, `Password` and `Roles` are the
    arguments, whose `Type` is `user`, whose `Rev`, `DerivedKey`, `PasswordSha`,
    `PasswordScheme` and `Salt` are empty, whose attachment map is nil and whose
    `Iterations` is 0; `NewUser("john", "password", [])` has the id
    `org.couchdb.user:john`. -/
theorem NewUser_spec (name password : GoString) (roles : StringSlice) :
    NewUser name password roles =
      { Id := str "org.couchdb.user:" ++ name, Rev := [], Attachments := none,
        DerivedKey := [], Name := name, Roles := roles, Password := password,
        PasswordSha := [], PasswordScheme := [], Salt := [], Type_ := str "user",
        Iterations := 0 } ∧
    (NewUser (str "john") (str "password") (some [])).Id = str "org.couchdb.user:john" :=
  ⟨rfl, by decide⟩

/-! ## Claims about the output and the panics of `quote`, and about `newError` on `null` -/

/-- C13, the code at failing inputs: `startkey = NaN` is emitted as `[NaN]` and the value
    of `key` made of the single control character U+0007 is emitted as `"\a"`; neither is a
    valid JSON text.  Each of `NaN`, `Inf`, `+1`, `.5`, `1.` and `0x1p4` is accepted by
    `strconv.ParseFloat` and is not a valid JSON text.  (`foo2,20` gives the valid
    `["foo2",20]`.) -/
theorem quote_emits_invalid_json :
    quote (fun _ => false) [(str "startkey", some [str "NaN"])] =
      some [(str "startkey", some [str "[NaN]"])] ∧
    validJSON (str "[NaN]") = false ∧
    quote (fun _ => false) [(str "key", some [[0x07]])] =
      some [(str "key", some [str "\"\\a\""])] ∧
    validJSON (str "\"\\a\"") = false ∧
    (∀ c ∈ [str "NaN", str "Inf", str "+1", str ".5", str "1.", str "0x1p4"],
      parseFloatOk c = true ∧ validJSON c = false ∧ validJSON (str "[" ++ c ++ str "]") = false) ∧
    quote (fun _ => false) [(str "startkey", some [str "foo2,20"])] =
      some [(str "startkey", some [str "[\"foo2\",20]"])] ∧
    validJSON (str "[\"foo2\",20]") = true :=
  ⟨by decide, by decide, by decide, by decide, by decide, by decide, by decide⟩

/-- C14: `quote` panics with an index out of range exactly when some parameter of the map
    has no first value, that is a nil or empty value list; it completes exactly when every
    parameter has at least one value.  The test `value != nil` guards nothing: `startkey`
    with a nil list, `endkey` with a nil list, `endkey` with an empty list and any other
    name with a nil or empty list all panic. -/
theorem quote_panics_iff (tbl : Nat → Bool) (values : Values) :
    (quote tbl values = none ↔ ∃ p ∈ values, p.2 = none ∨ p.2 = some []) ∧
    ((∃ out, quote tbl values = some out) ↔
      ∀ p ∈ values, ∃ v vs, p.2 = some (v :: vs)) ∧
    quote tbl [(str "startkey", none)] = none ∧
    quote tbl [(str "endkey", none)] = none ∧
    quote tbl [(str "endkey", some [])] = none ∧
    quote tbl [(str "limit", none)] = none ∧
    quote tbl [(str "limit", some [])] = none := by
  have h1 : quote tbl values = none ↔ ∃ p ∈ values, p.2 = none ∨ p.2 = some [] := by
    unfold quote
    rw [quoteLoop_eq_none_iff]
    simp only [index0_eq_none_iff]
  have hval : ∀ value : StringSlice,
      (∃ v vs, value = some (v :: vs)) ↔ ¬ (value = none ∨ value = some []) := by
    intro value
    cases value with
    | none => simp
    | some l => cases l <;> simp
  have hnone : ∀ vals : Values, (∃ p ∈ vals, p.2 = none ∨ p.2 = some []) →
      quote tbl vals = none := by
    intro vals h
    unfold quote
    rw [quoteLoop_eq_none_iff]
    simpa only [index0_eq_none_iff] using h
  refine ⟨h1, ?_, ?_, ?_, ?_, ?_, ?_⟩
  · constructor
    · rintro ⟨out, hout⟩ p hp
      rw [hval]
      intro hbad
      have := h1.mpr ⟨p, hp, hbad⟩
      rw [hout] at this
      cases this
    · intro hall
      cases hq : quote tbl values with
      | some out => exact ⟨out, rfl⟩
      | none =>
        obtain ⟨p, hp, hbad⟩ := h1.mp hq
        exact absurd hbad ((hval p.2).mp (hall p hp))
  · exact hnone _ ⟨_, List.mem_cons_self _ _, Or.inl rfl⟩
  · exact hnone _ ⟨_, List.mem_cons_self _ _, Or.inl rfl⟩
  · exact hnone _ ⟨_, List.mem_cons_self _ _, Or.inr rfl⟩
  · exact hnone _ ⟨_, List.mem_cons_self _ _, Or.inl rfl⟩
  · exact hnone _ ⟨_, List.mem_cons_self _ _, Or.inr rfl⟩

/-- C15, the code at the failing input: for a body that is the JSON literal `null` (white
    space around it allowed), `json.Unmarshal` succeeds and leaves the `*Error` nil, and
    `newError` panics assigning `Method` through it. -/
theorem newError_null_body_panics :
    unmarshalError (str "null") = .ok none ∧
    newError { Body := .ok (str "null"),
               Request := { Method := str "GET", URL := str "http://127.0.0.1:5984/dummy" },
               StatusCode := 500 } = .nilPanic ∧
    newError { Body := .ok (str " null\n"),
               Request := { Method := str "GET", URL := str "http://127.0.0.1:5984/dummy" },
               StatusCode := 500 } = .nilPanic :=
  ⟨rfl, by decide, by decide⟩

/-! ## The frame of `writeJSON` -/

/-- C16: after a `writeJSON` call in which creating the part and the stat of the file
    succeed, the attachment map of the document consists of exactly one entry, keyed by
    the base name of the file (the entries held before are gone), and `Id` and `Rev` are
    unchanged; if creating the part or the stat fails, the document is unchanged. -/
theorem writeJSON_frame (typeByExtension : GoString → GoString) (encode : JValue → GoString)
    (document : Document) (writer : MultipartWriter) (file : File) :
    (∀ n, writer.createPartError = none → file.stat = .ok n →
      (writeJSON typeByExtension encode document writer file).document =
        { Id := document.Id, Rev := document.Rev,
          Attachments := some [(filepathBase file.name,
            { Follows := true, ContentType := mimeType typeByExtension file.name,
              Length := n })] } ∧
      ∀ name, name ≠ filepathBase file.name →
        (writeJSON typeByExtension encode document writer file).document.attachment name =
          none) ∧
    ((writer.createPartError ≠ none ∨ ∃ err, file.stat = .error err) →
      (writeJSON typeByExtension encode document writer file).document = document) := by
  constructor
  · intro n hcreate hstat
    have hdoc : (writeJSON typeByExtension encode document writer file).document =
        { Id := document.Id, Rev := document.Rev,
          Attachments := some [(filepathBase file.name,
            { Follows := true, ContentType := mimeType typeByExtension file.name,
              Length := n })] } := by
      unfold writeJSON
      simp only [hcreate, hstat]
      cases writer.writeError <;> simp [mapSet]
    refine ⟨hdoc, ?_⟩
    intro name hne
    rw [hdoc]
    simp [Document.attachment, mapGet, Ne.symm hne]
  · intro h
    unfold writeJSON
    cases hc : writer.createPartError with
    | some err => rfl
    | none =>
      rcases h with h | ⟨err, h⟩
      · exact absurd hc h
      · simp only [h]

/-- C16, witness: a document that held the attachment `old.txt` gets `image.jpg` as its only
    attachment; with a failing stat it keeps `old.txt`. -/
theorem writeJSON_frame_witness :
    (writeJSON testTypeByExtension (fun _ => []) documentWithOldAttachment freshWriter
        { name := str "/tmp/image.jpg", stat := .ok 7 }).document =
      { Id := str "doc1", Rev := str "1-a",
        Attachments := some [(str "image.jpg",
          { Follows := true, ContentType := str "image/jpeg", Length := 7 })] } ∧
    (writeJSON testTypeByExtension (fun _ => []) documentWithOldAttachment freshWriter
        { name := str "/tmp/image.jpg",
          stat := .error { message := str "bad file descriptor" } }).document =
      documentWithOldAttachment :=
  ⟨((writeJSON_frame testTypeByExtension (fun _ => []) documentWithOldAttachment freshWriter
      { name := str "/tmp/image.jpg", stat := .ok 7 }).1 7 rfl rfl).1.trans (by decide),
   (writeJSON_frame testTypeByExtension (fun _ => []) documentWithOldAttachment freshWriter
      { name := str "/tmp/image.jpg",
        stat := .error { message := str "bad file descriptor" } }).2 (Or.inr ⟨_, rfl⟩)⟩

end Couchdb
